import Mathlib

/-!
# fatty: tab management core of `src/winxx.cc`

A shallow embedding of the tab collection, the per-tab title stack, the timer
callback registry and the tab-strip layout of `winxx.cc`, followed by theorems
about them.

Conventions of the embedding

* Pointers are natural numbers (addresses); `0` is `nullptr`.
* C integers are `Int`/`Nat` with explicit wrap-around for an LP64 target:
  `int` and `unsigned int` have 32 bits, `size_t` has 64 bits.
* A `float` is an IEEE 754 binary32 value: every conversion to `float` and
  every `float` operation rounds to nearest, ties to even; conversion of a
  `float` to an integer truncates toward zero.
* A function whose C++ counterpart may write through an invalid reference,
  throw `std::out_of_range` or divide by zero returns `Option`; `none` stands
  for "no defined result".  A read of an array element that does not exist
  yields `none` for the value read and leaves the state alone.
* Calls into the window system that only change what is on screen are not
  part of the state, except that `win_invalidate_all` calls are counted.
-/

namespace Fatty

/-! ## Machine arithmetic -/

/-- Conversion to `unsigned int`. -/
def u32 (x : Int) : Nat := (x % 4294967296).toNat

/-- Conversion to `size_t`. -/
def u64 (x : Int) : Nat := (x % 18446744073709551616).toNat

/-- Conversion to `int` (two's complement wrap-around). -/
def i32 (x : Int) : Int := (x + 2147483648) % 4294967296 - 2147483648

/-! ## 32-bit floating point -/

/-- A `float` (IEEE 754 binary32): the finite value `m * 2^e`, an infinity or
a NaN.  Several pairs `(m, e)` stand for the same value; floats are only
compared by value (`F32.lt`).  The sign of a zero is not recorded, nothing
here depends on it. -/
inductive F32 where
  | fin (m : Int) (e : Int)
  | inf (neg : Bool)
  | nan
deriving DecidableEq, Repr

/-- Counts binary digits, one per unit of `fuel`. -/
def bitlenAux : Nat → Nat → Nat
  | 0, _ => 0
  | fuel + 1, n => if n = 0 then 0 else bitlenAux fuel (n / 2) + 1

/-- Number of binary digits of `n`. -/
def bitlen (n : Nat) : Nat := bitlenAux n n

/-- Rounds the exact value `m * 2^e` to the nearest `float`, ties to even:
at most 24 digits are kept and none below `2^-149`; a result of magnitude
`2^128` or more is an infinity. -/
def F32.round (m e : Int) : F32 :=
  let a : Nat := m.natAbs
  let k : Nat := max (bitlen a - 24) (-149 - e).toNat
  let q : Nat := a / 2 ^ k
  let r : Nat := a % 2 ^ k
  let q1 : Nat := if 2 * r > 2 ^ k ∨ (2 * r = 2 ^ k ∧ q % 2 = 1) then q + 1 else q
  if q1 ≠ 0 ∧ (bitlen q1 : Int) + (e + (k : Int)) > 128 then F32.inf (decide (m < 0))
  else F32.fin (if m < 0 then -(q1 : Int) else (q1 : Int)) (e + (k : Int))

/-- Conversion of an `int` to `float`. -/
def F32.ofInt (x : Int) : F32 := F32.round x 0

/-- Conversion of an `unsigned int` or `size_t` to `float`. -/
def F32.ofNat (n : Nat) : F32 := F32.round (n : Int) 0

/-- Negation of a `float`. -/
def F32.neg : F32 → F32
  | F32.fin m e => F32.fin (-m) e
  | F32.inf s => F32.inf (!s)
  | F32.nan => F32.nan

/-- Product of two `float`s. -/
def F32.mul : F32 → F32 → F32
  | F32.fin m1 e1, F32.fin m2 e2 => F32.round (m1 * m2) (e1 + e2)
  | F32.fin m _, F32.inf s => if m = 0 then F32.nan else F32.inf (xor s (decide (m < 0)))
  | F32.inf s, F32.fin m _ => if m = 0 then F32.nan else F32.inf (xor s (decide (m < 0)))
  | F32.inf s1, F32.inf s2 => F32.inf (xor s1 s2)
  | F32.nan, _ => F32.nan
  | _, F32.nan => F32.nan

/-- Sum of two `float`s. -/
def F32.add : F32 → F32 → F32
  | F32.fin m1 e1, F32.fin m2 e2 =>
    let e := min e1 e2
    F32.round (m1 * 2 ^ (e1 - e).toNat + m2 * 2 ^ (e2 - e).toNat) e
  | F32.fin _ _, F32.inf s => F32.inf s
  | F32.inf s, F32.fin _ _ => F32.inf s
  | F32.inf s1, F32.inf s2 => if s1 = s2 then F32.inf s1 else F32.nan
  | F32.nan, _ => F32.nan
  | _, F32.nan => F32.nan

/-- Difference of two `float`s. -/
def F32.sub (a b : F32) : F32 := F32.add a (F32.neg b)

/-- Quotient of two `float`s.  The exact quotient is cut after more than 26
digits with a sticky last digit, which rounds like the exact quotient. -/
def F32.div : F32 → F32 → F32
  | F32.fin m1 e1, F32.fin m2 e2 =>
    if m2 = 0 then (if m1 = 0 then F32.nan else F32.inf (decide (m1 < 0)))
    else
      let s : Nat := bitlen m2.natAbs + 26 - bitlen m1.natAbs
      let q : Nat := m1.natAbs * 2 ^ s / m2.natAbs
      let r : Nat := m1.natAbs * 2 ^ s % m2.natAbs
      let big : Nat := 2 * q + (if r = 0 then 0 else 1)
      F32.round (if decide (m1 < 0) = decide (m2 < 0) then (big : Int) else -(big : Int))
        (e1 - e2 - (s : Int) - 1)
  | F32.fin _ _, F32.inf _ => F32.fin 0 0
  | F32.inf s, F32.fin m _ => F32.inf (xor s (decide (m < 0)))
  | F32.inf _, F32.inf _ => F32.nan
  | F32.nan, _ => F32.nan
  | _, F32.nan => F32.nan

/-- The comparison `a < b` of two `float`s (false when either is a NaN). -/
def F32.lt : F32 → F32 → Bool
  | F32.fin m1 e1, F32.fin m2 e2 =>
    let e := min e1 e2
    decide (m1 * 2 ^ (e1 - e).toNat < m2 * 2 ^ (e2 - e).toNat)
  | F32.fin _ _, F32.inf s => !s
  | F32.inf s, F32.fin _ _ => s
  | F32.inf s1, F32.inf s2 => s1 && !s2
  | F32.nan, _ => false
  | _, F32.nan => false

/-- The integer part of a finite `float` (truncation toward zero). -/
def F32.trunc : F32 → Option Int
  | F32.fin m e => some (if 0 ≤ e then m * 2 ^ e.toNat else Int.tdiv m (2 ^ (-e).toNat))
  | _ => none

/-- Conversion of a `float` to `int`.  C++ leaves the result undefined when
the integer part is not an `int`; the value of the x86-64 conversion
instruction is taken then. -/
def F32.toInt32 (f : F32) : Int :=
  match f.trunc with
  | some v => if -2147483648 ≤ v ∧ v < 2147483648 then v else -2147483648
  | none => -2147483648

/-- Conversion of a `float` to `unsigned int`.  C++ leaves the result
undefined when the integer part is not an `unsigned int`; the low 32 bits of
the x86-64 64-bit conversion are taken then. -/
def F32.toUInt32 (f : F32) : Nat :=
  match f.trunc with
  | some v => if -9223372036854775808 ≤ v ∧ v < 9223372036854775808 then u32 v else 0
  | none => 0

/-- Library `std::find_if`: position of the first element satisfying `p`,
`none` for the end iterator. -/
def find_if {α : Type} (p : α → Bool) : List α → Option Nat
  | [] => none
  | x :: xs => if p x then some 0 else (find_if p xs).map (· + 1)

/-! ## Data model -/

/-- Declarations of `win.hh` / `winpriv.h` that the translation unit uses but
that are not among the sources: the capacity of `Tab::info.titles` and the
`PADDING` constant. -/
structure Decls where
  TITLES : Nat
  PADDING : Int
deriving DecidableEq, Repr

/-- Embeds `typedef tuple<CallbackFn, void*> Callback`. -/
structure Callback where
  fn : Nat
  data : Nat
deriving DecidableEq, Repr

/-- One node of `std::set<Callback>`: the address of the stored tuple (this
is the timer id handed to `SetTimer`) and the tuple itself. -/
structure CallbackNode where
  addr : Nat
  val : Callback
deriving DecidableEq, Repr

/-- Embeds `Tab::info`. -/
structure TabInfo where
  attention : Bool
  titles : List String
  titles_i : Nat
deriving DecidableEq, Repr

/-- Embeds `Tab`.  `terminal` and `chld` are the addresses held by the two
`unique_ptr`s; `has_focus` and `pid` are the fields of the owned objects that
this file reads or writes (`term_set_focus`, `chld->pid`), and travel with
the pointers when these are moved. -/
structure Tab where
  info : TabInfo
  terminal : Nat
  has_focus : Bool
  chld : Nat
  pid : Nat
deriving DecidableEq, Repr

/-- The file-level statics of `winxx.cc`, plus observation fields:
`invalidations` counts calls of `win_invalidate_all`, `terminated` lists the
children passed to `child_terminate`, and `desktop_xdpi`, `desktop_ydpi` are
what `GetDesktopDpi` reports to `init_scale_factors`. -/
structure State where
  callbacks : List CallbackNode
  tabs : List Tab
  active_tab : Nat
  g_xscale : F32
  g_yscale : F32
  tab_bar_visible : Bool
  tab_paint_width : Int
  invalidations : Nat
  terminated : List Nat
  desktop_xdpi : F32
  desktop_ydpi : F32
deriving DecidableEq

/-! ## Tab construction, move construction and move assignment -/

/-- Embeds `Tab::Tab()`: fresh terminal and child, attention off, cursor 0, every
title empty.  The child has no process yet (`memset` to 0). -/
def Tab.new (d : Decls) (terminal chld : Nat) : Tab :=
  { info := { attention := false, titles := List.replicate d.TITLES "", titles_i := 0 },
    terminal := terminal, has_focus := false, chld := chld, pid := 0 }

/-- Embeds `Tab::Tab(Tab&& t)`: returns the constructed tab and what is left in `t`
(`info` is copied, both pointers are moved out). -/
def Tab.move_ctor (t : Tab) : Tab × Tab :=
  (t, { t with terminal := 0, has_focus := false, chld := 0, pid := 0 })

/-- Embeds `Tab::operator=(Tab&& t)` for two distinct objects: the three members are
swapped.  Returns the new `*this` and the new `t`. -/
def Tab.move_assign (self t : Tab) : Tab × Tab :=
  (t, self)

/-- Embeds `Tab::operator=(Tab&& t)` when `t` is `*this`: each member is swapped with
itself. -/
def Tab.move_assign_self (self : Tab) : Tab := self

/-- Embeds `std::swap(tabs[i], tabs[j])`, spelled out as the library does it:
`Tab tmp(std::move(a)); a = std::move(b); b = std::move(tmp);`. -/
def swap_tabs (tabs : List Tab) (i j : Nat) : Option (List Tab) :=
  match tabs[i]?, tabs[j]? with
  | some a, some b =>
    if i = j then
      let c := Tab.move_ctor a
      let a1 := Tab.move_assign_self c.2
      let r := Tab.move_assign a1 c.1
      some (tabs.set i r.1)
    else
      let c := Tab.move_ctor a
      let r1 := Tab.move_assign c.2 b
      let r2 := Tab.move_assign r1.2 c.1
      some ((tabs.set i r1.1).set j r2.1)
  | _, _ => none

/-- The element-by-element move assignment of `vector::erase`: `cur` is the
element being overwritten, the list holds the elements after it.  The last
element is destroyed. -/
def shift_down : Tab → List Tab → List Tab
  | _, [] => []
  | cur, nxt :: rest =>
    let r := Tab.move_assign cur nxt
    r.1 :: shift_down r.2 rest

/-- Embeds `tabs.erase(it)` with `it` at position `i`. -/
def vector_erase : List Tab → Nat → List Tab
  | [], _ => []
  | t :: ts, 0 => shift_down t ts
  | t :: ts, i + 1 => t :: vector_erase ts i

/-! ## Callback registry -/

/-- Ordering of `std::set<Callback>`: lexicographic on the tuple. -/
def Callback.lt (a b : Callback) : Bool :=
  a.fn < b.fn || (a.fn == b.fn && a.data < b.data)

/-- Insertion of a new node at its place in the order. -/
def ordered_insert (n : CallbackNode) : List CallbackNode → List CallbackNode
  | [] => [n]
  | m :: ms => if Callback.lt n.val m.val then n :: m :: ms else m :: ordered_insert n ms

/-- Embeds `callbacks.insert(v)`: when an equal tuple is stored the set is unchanged
and the existing node is returned, otherwise a node is allocated at `fresh`.
Returns the set and the address of the node the iterator points to. -/
def set_insert (cbs : List CallbackNode) (v : Callback) (fresh : Nat) :
    List CallbackNode × Nat :=
  match cbs.find? (fun n => n.val == v) with
  | some n => (cbs, n.addr)
  | none => (ordered_insert ⟨fresh, v⟩ cbs, fresh)

/-- Embeds `callbacks.erase(key)`: removes the elements equal to `key`. -/
def set_erase (cbs : List CallbackNode) (key : Callback) : List CallbackNode :=
  cbs.filter (fun n => !(n.val == key))

/-- Embeds `win_set_timer(cb, data, ticks)`; `fresh` is the address the allocator
would give a new set node.  Returns the state and the timer id armed. -/
def win_set_timer (st : State) (cb data : Nat) (fresh : Nat) : State × Nat :=
  let r := set_insert st.callbacks ⟨cb, data⟩ fresh
  ({ st with callbacks := r.1 }, r.2)

/-- Line 87, `*reinterpret_cast<Callback*>(pointer)`: the tuple read through
the timer id.  The address of a live node holds that node's tuple; what any
other address holds is given by `mem` (`none`: the read faults). -/
def read_callback (cbs : List CallbackNode) (mem : Nat → Option Callback) (p : Nat) :
    Option Callback :=
  match cbs.find? (fun n => n.addr == p) with
  | some n => some n.val
  | none => mem p

/-- Embeds `win_process_timer_message(message)`.  Returns the state at the moment
the callback is called and the list of calls made (function and argument). -/
def win_process_timer_message (st : State) (mem : Nat → Option Callback) (message : Nat) :
    Option (State × List Callback) :=
  match read_callback st.callbacks mem message with
  | none => none
  | some callback =>
    some ({ st with callbacks := set_erase st.callbacks callback }, [callback])

/-! ## Tab collection -/

/-- Embeds `win_invalidate_all()`: a repaint of the whole window is requested. -/
def win_invalidate_all (st : State) : State :=
  { st with invalidations := st.invalidations + 1 }

/-- Embeds `invalidate_tabs()`. -/
def invalidate_tabs (st : State) : State := win_invalidate_all st

/-- Applies `f` to the tab at position `i` (a write through `tabs[i]`). -/
def modify_tab (tabs : List Tab) (i : Nat) (f : Tab → Tab) : List Tab :=
  match tabs[i]? with
  | some t => tabs.set i (f t)
  | none => tabs

/-- The loop of `set_active_tab`: `term_set_focus(tab.terminal.get(), &tab == active)`
for every tab; `k` is the position of the head of the list. -/
def focus_loop (active : Nat) : List Tab → Nat → List Tab
  | [], _ => []
  | t :: ts, k => { t with has_focus := decide (k = active) } :: focus_loop active ts (k + 1)

/-- Embeds `set_active_tab(index)`.  `tabs.at(active_tab)` throws when the index is
out of range.  `update_window_state` only touches the window. -/
def set_active_tab (st : State) (index : Nat) : Option State :=
  if index < st.tabs.length then
    let tabs1 := focus_loop index st.tabs 0
    let tabs2 := modify_tab tabs1 index
      (fun t => { t with info := { t.info with attention := false } })
    some (win_invalidate_all { st with active_tab := index, tabs := tabs2 })
  else none

/-- Embeds `rel_index(change)`: `(int(active_tab) + change + tabs.size()) % tabs.size()`.
The first sum is an `int`, the second and the remainder are computed in
`size_t`, the result is returned as `unsigned int`. -/
def rel_index (st : State) (change : Int) : Option Nat :=
  if st.tabs.length = 0 then none
  else
    let s : Int := i32 (i32 (st.active_tab : Int) + change)
    let t : Nat := u64 ((u64 s : Int) + (st.tabs.length : Int))
    some (u32 ((t % st.tabs.length : Nat) : Int))

/-- Embeds `win_tab_change(change)`. -/
def win_tab_change (st : State) (change : Int) : Option State :=
  match rel_index st change with
  | none => none
  | some idx => set_active_tab st idx

/-- Embeds `win_tab_move(amount)`. -/
def win_tab_move (st : State) (amount : Int) : Option State :=
  match rel_index st amount with
  | none => none
  | some new_idx =>
    match swap_tabs st.tabs st.active_tab new_idx with
    | none => none
    | some tabs1 => set_active_tab { st with tabs := tabs1 } new_idx

/-- Embeds `tab_by_term(term)`: position of the first tab owning `term`; `none` is
the end iterator, which the C++ function dereferences all the same. -/
def tab_by_term (tabs : List Tab) (term : Nat) : Option Nat :=
  find_if (fun tab => tab.terminal == term) tabs

/-- Embeds `win_active_terminal()`: `tabs.at(active_tab).terminal.get()`. -/
def win_active_terminal (st : State) : Option Nat :=
  match st.tabs[st.active_tab]? with
  | some t => some t.terminal
  | none => none

/-- Embeds `win_tab_get_title(idx)`: `tabs[idx].info.titles[tabs[idx].info.titles_i]`;
`none` when the tab or the title slot does not exist. -/
def win_tab_get_title (st : State) (idx : Nat) : Option String :=
  match st.tabs[idx]? with
  | some t => t.info.titles[t.info.titles_i]?
  | none => none

/-- Embeds `win_tab_set_title(term, title)`.  `win_set_title` only touches the
window. -/
def win_tab_set_title (st : State) (term : Nat) (title : String) : Option State :=
  match tab_by_term st.tabs term with
  | none => none
  | some i =>
    match st.tabs[i]? with
    | none => none
    | some tab =>
      match tab.info.titles[tab.info.titles_i]? with
      | none => none
      | some cur =>
        let st1 :=
          if cur ≠ title then
            invalidate_tabs { st with tabs := modify_tab st.tabs i (fun t =>
              { t with info := { t.info with titles := t.info.titles.set t.info.titles_i title } }) }
          else st
        match win_active_terminal st1 with
        | none => none
        | some _ => some st1

/-- The cursor update of `win_tab_title_push`. -/
def push_cursor (info : TabInfo) : TabInfo :=
  if info.titles_i = info.titles.length then { info with titles_i := 0 }
  else { info with titles_i := info.titles_i + 1 }

/-- The cursor update of `win_tab_title_pop`. -/
def pop_cursor (info : TabInfo) : TabInfo :=
  if info.titles_i = 0 then { info with titles_i := info.titles.length }
  else { info with titles_i := info.titles_i - 1 }

/-- Embeds `win_tab_title_push(term)`. -/
def win_tab_title_push (st : State) (term : Nat) : Option State :=
  match tab_by_term st.tabs term with
  | none => none
  | some i =>
    some { st with tabs := modify_tab st.tabs i (fun t => { t with info := push_cursor t.info }) }

/-- Embeds `win_tab_title_pop(term)`: returns the state and the title returned,
which is `win_tab_get_title(active_tab)`. -/
def win_tab_title_pop (st : State) (term : Nat) : Option (State × Option String) :=
  match tab_by_term st.tabs term with
  | none => none
  | some i =>
    let st1 := { st with tabs := modify_tab st.tabs i (fun t => { t with info := pop_cursor t.info }) }
    some (st1, win_tab_get_title st1 st1.active_tab)

/-- Embeds `win_tab_save_title(term)`. -/
def win_tab_save_title (st : State) (term : Nat) : Option State :=
  win_tab_title_push st term

/-- Embeds `win_tab_restore_title(term)`: `win_tab_set_title(term, win_tab_title_pop(term))`.
A popped title that was read from a slot that does not exist cannot be
passed on. -/
def win_tab_restore_title (st : State) (term : Nat) : Option State :=
  match win_tab_title_pop st term with
  | none => none
  | some (_, none) => none
  | some (st1, some title) => win_tab_set_title st1 term title

/-- Embeds `win_tab_attention(term)`. -/
def win_tab_attention (st : State) (term : Nat) : Option State :=
  match tab_by_term st.tabs term with
  | none => none
  | some i =>
    some (invalidate_tabs { st with tabs := modify_tab st.tabs i (fun t =>
      { t with info := { t.info with attention := true } }) })

/-- Embeds `init_scale_factors()`: the scale factors are the desktop DPI
divided by `96.0f`. -/
def init_scale_factors (st : State) : State :=
  { st with
    g_xscale := F32.div st.desktop_xdpi (F32.ofInt 96),
    g_yscale := F32.div st.desktop_ydpi (F32.ofInt 96) }

/-- Embeds `set_tab_bar_visibility(b)`.  When the flag changes,
`win_tab_height()` calls `tabheight()`, hence `init_scale_factors()`, if the
bar is now visible, and `fix_window_size` reads `tabs[active_tab]` (window
not fullscreen). -/
def set_tab_bar_visibility (st : State) (b : Bool) : Option State :=
  if b = st.tab_bar_visible then some st
  else
    let st1 := { st with tab_bar_visible := b }
    let st2 := if b then init_scale_factors st1 else st1
    if st2.active_tab < st2.tabs.length then some (win_invalidate_all st2)
    else none

/-- Embeds `newtab(rows, cols, width, height, cwd, title)`: appends `Tab()`, lets
`child_create` start the process (`pid`), and sets the title (`title` is the
converted explicit title or command name).  `terminal` and `chld` are the
addresses of the new objects. -/
def newtab (d : Decls) (st : State) (terminal chld pid : Nat) (title : String) : Option State :=
  let tab : Tab := { Tab.new d terminal chld with pid := pid }
  win_tab_set_title { st with tabs := st.tabs ++ [tab] } terminal title

/-- Embeds `win_tab_create()`. -/
def win_tab_create (d : Decls) (st : State) (terminal chld pid : Nat) (title : String) :
    Option State :=
  if st.active_tab < st.tabs.length then
    match newtab d st terminal chld pid title with
    | none => none
    | some st1 =>
      match set_active_tab st1 (u32 ((st1.tabs.length : Int) - 1)) with
      | none => none
      | some st2 => set_tab_bar_visibility st2 (decide (st2.tabs.length > 1))
  else none

/-- Embeds `win_tab_close()`: `child_terminate(win_active_terminal()->child)`. -/
def win_tab_close (st : State) : Option State :=
  match st.tabs[st.active_tab]? with
  | some t => some { st with terminated := st.terminated ++ [t.chld] }
  | none => none

/-- The inner loop of `win_tab_clean`: while some callback has the terminal
as its data, erase the first such callback. -/
def purge_loop : Nat → List CallbackNode → Nat → Option (List CallbackNode)
  | 0, _, _ => none
  | fuel + 1, cbs, term =>
    match find_if (fun x => x.val.data == term) cbs with
    | none => some cbs
    | some k => purge_loop fuel (cbs.eraseIdx k) term

/-- The outer loop of `win_tab_clean`: while some tab has `chld->pid == 0`,
purge its callbacks and erase it.  The flag is the local `invalidate`. -/
def clean_loop : Nat → State → Bool → Option (State × Bool)
  | 0, _, _ => none
  | fuel + 1, st, invalidate =>
    match find_if (fun x => x.pid == 0) st.tabs with
    | none => some (st, invalidate)
    | some i =>
      match st.tabs[i]? with
      | none => none
      | some it =>
        match purge_loop (st.callbacks.length + 1) st.callbacks it.terminal with
        | none => none
        | some cbs =>
          clean_loop fuel { st with callbacks := cbs, tabs := vector_erase st.tabs i } true

/-- Embeds `win_tab_clean()`. -/
def win_tab_clean (st : State) : Option State :=
  match clean_loop (st.tabs.length + 1) st false with
  | none => none
  | some (st1, invalidate) =>
    if invalidate && decide (st1.tabs.length > 0) then
      let r :=
        if st1.active_tab ≥ st1.tabs.length then
          set_active_tab st1 (u32 ((st1.tabs.length : Int) - 1))
        else set_active_tab st1 st1.active_tab
      match r with
      | none => none
      | some st2 =>
        match set_tab_bar_visibility st2 (decide (st2.tabs.length > 1)) with
        | none => none
        | some st3 => some (win_invalidate_all st3)
    else some st1

/-! ## Tab-strip layout and hit-testing -/

/-- Embeds `tab_font_size()`: the `float` product `14 * g_yscale` as an `int`. -/
def tab_font_size (st : State) : Int := F32.toInt32 (F32.mul (F32.ofInt 14) st.g_yscale)

/-- Line 378: `(width / tabs.size()) > preferred_width ? preferred_width : width / tabs.size()`,
with `width` an `int`, the division in `size_t`, and the result stored in an
`int`. -/
def tabwidth (width : Int) (size : Nat) (preferred_width : Nat) : Int :=
  let q : Nat := u64 width / size
  i32 ((if q > preferred_width then preferred_width else q : Nat) : Int)

/-- The local `width` after line 370 of `win_paint_tabs`:
`width - 2 * PADDING - ADD_BUTTON_PADDING - loc_tabheight * 0.5`, where
`loc_tabheight` is the `float` product `18 * g_yscale` as an `int`.  The
product with `0.5` and the last subtraction are `double` operations, exact
on `int` operands, so the value truncated into `width` is half of
`2 * (width - 2 * PADDING - ADD_BUTTON_PADDING) - loc_tabheight`. -/
def paint_width (d : Decls) (st : State) (width : Int) : Int :=
  let loc_tabheight : Int := F32.toInt32 (F32.mul (F32.ofInt 18) st.g_yscale)
  Int.tdiv (2 * (width - 2 * d.PADDING - 2) - loc_tabheight) 2

/-- The local `preferred_width` of `win_paint_tabs`: the `float` product
`200 * g_xscale` as an `unsigned int`. -/
def preferred_width (st : State) : Nat :=
  F32.toUInt32 (F32.mul (F32.ofInt 200) st.g_xscale)

/-- Embeds `win_paint_tabs(dc, width)`, as far as the statics are concerned: the
tab width is computed and stored in `tab_paint_width`; the calls of
`tabheight()` that follow (line 393 on) reload the scale factors. -/
def win_paint_tabs (d : Decls) (st : State) (width : Int) : Option State :=
  if !st.tab_bar_visible then some st
  else if st.tabs.length = 0 then none
  else
    let tw := tabwidth (paint_width d st width) st.tabs.length (preferred_width st)
    some (init_scale_factors { st with tab_paint_width := tw })

/-- The local `tab` of `win_tab_mouse_click`: `x / tab_paint_width` as an
`unsigned int`. -/
def click_tab (st : State) (x : Int) : Nat := u32 (Int.tdiv x st.tab_paint_width)

/-- The local `click_add` of `win_tab_mouse_click`:
`x < (tab_paint_width * tabs.size() + (ADD_BUTTON_PADDING + 18) * g_xscale)`.
The first product is a `size_t`; it is converted to `float` and added to the
`float` product, and `x` is converted to `float` for the comparison. -/
def click_add (st : State) (x : Int) : Bool :=
  F32.lt (F32.ofInt x)
    (F32.add (F32.ofNat (u64 (st.tab_paint_width * (st.tabs.length : Int))))
      (F32.mul (F32.ofInt (2 + 18)) st.g_xscale))

/-- The local `click_close` of `win_tab_mouse_click`:
`x > (tab_paint_width * (tab + 1) - tab_font_size() - CLOSE_BUTTON_PADDING * g_xscale)`.
The product and the first difference are `unsigned int`s; the difference is
converted to `float`, the `float` product is subtracted, and `x` is
converted to `float` for the comparison. -/
def click_close (st : State) (x : Int) (tab : Nat) : Bool :=
  F32.lt
    (F32.sub
      (F32.ofNat (u32 ((u32 (st.tab_paint_width * ((tab : Int) + 1)) : Int) - tab_font_size st)))
      (F32.mul (F32.ofInt 2) st.g_xscale))
    (F32.ofInt x)

/-- Embeds `win_tab_mouse_click(down, x)`.  The four trailing arguments are what
`win_tab_create` needs when the add button is hit. -/
def win_tab_mouse_click (d : Decls) (st : State) (down : Bool) (x : Int)
    (terminal chld pid : Nat) (title : String) : Option State :=
  if st.tab_paint_width = 0 then none
  else
    let tab := click_tab st x
    if tab ≥ st.tabs.length then
      if !down then
        if click_add st x then win_tab_create d st terminal chld pid title
        else some st
      else some st
    else
      match set_active_tab st tab with
      | none => none
      | some st1 =>
        if down then
          if click_close st1 x tab then win_tab_close st1
          else some st1
        else some st1

/-! ## Vocabulary of the statements -/

/-- What `set_active_tab index` makes of the tab at position `k`: focus goes
to the tab at `index` only, and that tab loses its attention flag. -/
def refreshed (index k : Nat) (t : Tab) : Tab :=
  { t with
    has_focus := decide (k = index),
    info := { t.info with attention := if k = index then false else t.info.attention } }

/-- The part of a tab that identifies it: its session, its process and its
title stack. -/
def Tab.session (t : Tab) : Nat × Nat × Nat × List String × Nat :=
  (t.terminal, t.chld, t.pid, t.info.titles, t.info.titles_i)

/-- The position that position `k` receives its tab from when positions `a`
and `j` are exchanged. -/
def exchanged (a j k : Nat) : Nat :=
  if k = j then a else if k = a then j else k

/-- Makes `k` calls of `win_tab_title_push(term)` in a row. -/
def title_pushes (term : Nat) : Nat → State → Option State
  | 0, st => some st
  | k + 1, st =>
    match win_tab_title_push st term with
    | none => none
    | some st1 => title_pushes term k st1

/-- Makes `k` calls of `win_tab_title_pop(term)` in a row (the returned titles are
dropped). -/
def title_pops (term : Nat) : Nat → State → Option State
  | 0, st => some st
  | k + 1, st =>
    match win_tab_title_pop st term with
    | none => none
    | some r => title_pops term k r.1

/-- The child process of the tab at position `i` exits: its `pid` reads 0
from then on. -/
def child_exit (st : State) (i : Nat) : State :=
  { st with tabs := modify_tab st.tabs i (fun t => { t with pid := 0 }) }

/-- One call into the tab manager (or one process exit) that returns. -/
inductive Step (d : Decls) : State → State → Prop
  | create (st st' : State) (terminal chld pid : Nat) (title : String) :
      win_tab_create d st terminal chld pid title = some st' → Step d st st'
  | change (st st' : State) (delta : Int) :
      win_tab_change st delta = some st' → Step d st st'
  | move (st st' : State) (delta : Int) :
      win_tab_move st delta = some st' → Step d st st'
  | clean (st st' : State) :
      win_tab_clean st = some st' → Step d st st'
  | attention (st st' : State) (term : Nat) :
      win_tab_attention st term = some st' → Step d st st'
  | set_title (st st' : State) (term : Nat) (title : String) :
      win_tab_set_title st term title = some st' → Step d st st'
  | save_title (st st' : State) (term : Nat) :
      win_tab_save_title st term = some st' → Step d st st'
  | title_pop (st st' : State) (term : Nat) (r : Option String) :
      win_tab_title_pop st term = some (st', r) → Step d st st'
  | restore_title (st st' : State) (term : Nat) :
      win_tab_restore_title st term = some st' → Step d st st'
  | mouse_click (st st' : State) (down : Bool) (x : Int) (terminal chld pid : Nat)
      (title : String) :
      0 < st.tab_paint_width →
      win_tab_mouse_click d st down x terminal chld pid title = some st' → Step d st st'
  | paint (st st' : State) (width : Int) :
      win_paint_tabs d st width = some st' → Step d st st'
  | exit (st : State) (i : Nat) : Step d st (child_exit st i)
  | set_timer (st : State) (cb data fresh : Nat) :
      Step d st (win_set_timer st cb data fresh).1
  | timer (st st' : State) (mem : Nat → Option Callback) (message : Nat)
      (calls : List Callback) :
      win_process_timer_message st mem message = some (st', calls) → Step d st st'

/-- States that a sequence of calls leads to from `st0`. -/
def Reachable (d : Decls) (st0 st : State) : Prop :=
  Relation.ReflTransGen (Step d) st0 st

/-! ## Example states -/

/-- Three title slots, `PADDING` 1. -/
def exDecls : Decls := ⟨3, 1⟩

/-- Tab A: terminal 10, child 11, current title "a1". -/
def exTabA : Tab :=
  { info := ⟨false, ["a0", "a1", "a2"], 1⟩, terminal := 10, has_focus := true,
    chld := 11, pid := 5 }

/-- Tab B: terminal 20, child 21, current title "b1". -/
def exTabB : Tab :=
  { info := ⟨false, ["b0", "b1", "b2"], 1⟩, terminal := 20, has_focus := false,
    chld := 21, pid := 6 }

/-- Two tabs A and B, A active, tab width 150. -/
def exTwoTabs : State :=
  { callbacks := [], tabs := [exTabA, exTabB], active_tab := 0,
    g_xscale := F32.fin 1 0, g_yscale := F32.fin 1 0, tab_bar_visible := true,
    tab_paint_width := 150, invalidations := 0, terminated := [],
    desktop_xdpi := F32.fin 96 0, desktop_ydpi := F32.fin 96 0 }

/-- One freshly constructed tab (terminal 10, child 11, process 5), active. -/
def exFresh (d : Decls) : State :=
  { callbacks := [], tabs := [{ Tab.new d 10 11 with pid := 5 }], active_tab := 0,
    g_xscale := F32.fin 0 0, g_yscale := F32.fin 0 0, tab_bar_visible := false,
    tab_paint_width := 0, invalidations := 0, terminated := [],
    desktop_xdpi := F32.fin 96 0, desktop_ydpi := F32.fin 96 0 }

/-- A registry holding one pending callback: function 1 with context 7, in
the set node at address 64. -/
def exPending : State :=
  { exTwoTabs with callbacks := [⟨64, ⟨1, 7⟩⟩] }

/-- Memory outside the live set nodes: the freed node at address 64 still
holds the tuple (1, 7); nothing else is readable. -/
def exStaleMem : Nat → Option Callback :=
  fun p => if p = 64 then some ⟨1, 7⟩ else none

/-- Tab C: terminal 30, child 31. -/
def exTabC : Tab :=
  { info := ⟨false, ["c0", "c1", "c2"], 0⟩, terminal := 30, has_focus := false,
    chld := 31, pid := 7 }

/-- Tab D: terminal 40, child 41. -/
def exTabD : Tab :=
  { info := ⟨false, ["d0", "d1", "d2"], 0⟩, terminal := 40, has_focus := false,
    chld := 41, pid := 8 }

/-- Four tabs A, B, C, D, A active, tab width 150. -/
def exFourTabs : State :=
  { exTwoTabs with tabs := [exTabA, exTabB, exTabC, exTabD] }

/-- Two tabs A and B, A active, tab width 200. -/
def exWideTabs : State :=
  { exTwoTabs with tab_paint_width := 200 }

/-- The sessions of the tabs whose process has terminated, in tab order. -/
def dead_terms (tabs : List Tab) : List Nat :=
  (tabs.filter (fun t => t.pid == 0)).map (fun t => t.terminal)

/-- Tabs A and B, A active, the process of B has terminated; three callbacks
are pending for the session of B (20) and one for the session of A (10). -/
def exDeadB : State :=
  { exTwoTabs with
    tabs := [exTabA, { exTabB with pid := 0 }],
    callbacks := [⟨64, ⟨1, 20⟩⟩, ⟨96, ⟨2, 10⟩⟩, ⟨128, ⟨2, 20⟩⟩, ⟨160, ⟨3, 20⟩⟩] }

/-- The fresh one-tab state after `win_tab_create` (new terminal 20, child
21, process 6, title "sh"). -/
def exCreated : State :=
  { callbacks := [],
    tabs := [{ Tab.new exDecls 10 11 with pid := 5 },
             { info := ⟨false, ["sh", "", ""], 0⟩, terminal := 20, has_focus := true,
               chld := 21, pid := 6 }],
    active_tab := 1, g_xscale := F32.fin 8388608 (-23), g_yscale := F32.fin 8388608 (-23),
    tab_bar_visible := true, tab_paint_width := 0, invalidations := 3, terminated := [],
    desktop_xdpi := F32.fin 96 0, desktop_ydpi := F32.fin 96 0 }

/-- Makes `k` calls of `win_tab_change(change)` in a row. -/
def tab_changes (change : Int) : Nat → State → Option State
  | 0, st => some st
  | k + 1, st =>
    match win_tab_change st change with
    | none => none
    | some st1 => tab_changes change k st1

/-- Three tabs A, B, C, A active, tab width 150. -/
def exThreeTabs : State :=
  { exTwoTabs with tabs := [exTabA, exTabB, exTabC] }

theorem find_if_lt {α : Type} (p : α → Bool) (l : List α) (i : Nat)
    (h : find_if p l = some i) : i < l.length := by
  induction l generalizing i with
  | nil => simp [find_if] at h
  | cons x xs ih =>
    simp only [find_if] at h
    split at h
    · simp at h; subst h; simp
    · cases hf : find_if p xs with
      | none => simp [hf] at h
      | some j =>
        simp [hf] at h
        subst h
        have := ih j hf
        simp; omega

theorem find_if_none {α : Type} (p : α → Bool) (l : List α) :
    find_if p l = none ↔ ∀ x ∈ l, p x = false := by
  induction l with
  | nil => simp [find_if]
  | cons x xs ih =>
    simp only [find_if]
    by_cases hp : p x = true
    · simp [hp]
    · simp [hp, ih]

theorem find_if_isSome {α : Type} (p : α → Bool) (l : List α) (x : α) (hx : x ∈ l)
    (hp : p x = true) : ∃ i, find_if p l = some i := by
  cases h : find_if p l with
  | some i => exact ⟨i, rfl⟩
  | none =>
    have := (find_if_none p l).1 h x hx
    simp [hp] at this

theorem length_modify_tab (l : List Tab) (i : Nat) (f : Tab → Tab) :
    (modify_tab l i f).length = l.length := by
  unfold modify_tab
  split <;> simp

theorem getElem?_modify_tab (l : List Tab) (i m : Nat) (f : Tab → Tab) :
    (modify_tab l i f)[m]? = if m = i then (l[m]?).map f else l[m]? := by
  unfold modify_tab
  by_cases hmi : m = i
  · subst hmi
    cases h : l[m]? with
    | none => simp [h]
    | some t =>
      have hlt : m < l.length := by
        rcases List.getElem?_eq_some_iff.1 h with ⟨hl, _⟩
        exact hl
      simp [h, List.getElem?_set, hlt]
  · cases h : l[i]? with
    | none => simp [hmi]
    | some t =>
      have : ¬ i = m := fun e => hmi e.symm
      simp [hmi, List.getElem?_set, this]

theorem modify_tab_modify_tab (l : List Tab) (i : Nat) (f g : Tab → Tab) :
    modify_tab (modify_tab l i f) i g = modify_tab l i (fun t => g (f t)) := by
  apply List.ext_getElem?
  intro m
  simp only [getElem?_modify_tab]
  split
  · cases l[m]? <;> simp
  · rfl

theorem modify_tab_id (l : List Tab) (i : Nat) (f : Tab → Tab) (hf : ∀ t, f t = t) :
    modify_tab l i f = l := by
  apply List.ext_getElem?
  intro m
  simp only [getElem?_modify_tab]
  split
  · cases l[m]? <;> simp [hf]
  · rfl

theorem find_if_congr_getElem? {α : Type} (p : α → Bool) (l l' : List α)
    (hlen : l.length = l'.length)
    (h : ∀ (m : Nat) (x y : α), l[m]? = some x → l'[m]? = some y → p x = p y) :
    find_if p l = find_if p l' := by
  induction l generalizing l' with
  | nil =>
    cases l' with
    | nil => rfl
    | cons y ys => simp at hlen
  | cons x xs ih =>
    cases l' with
    | nil => simp at hlen
    | cons y ys =>
      have h0 : p x = p y := h 0 x y (by simp) (by simp)
      have ht : find_if p xs = find_if p ys := by
        apply ih
        · simpa using hlen
        · intro m a b ha hb
          exact h (m + 1) a b (by simpa using ha) (by simpa using hb)
      simp [find_if, h0, ht]

theorem tab_by_term_modify_tab (l : List Tab) (i : Nat) (f : Tab → Tab) (term : Nat)
    (hf : ∀ t, (f t).terminal = t.terminal) :
    tab_by_term (modify_tab l i f) term = tab_by_term l term := by
  unfold tab_by_term
  apply find_if_congr_getElem?
  · exact length_modify_tab l i f
  · intro m x y hx hy
    rw [getElem?_modify_tab] at hx
    split at hx
    · rw [hy] at hx
      simp at hx
      subst hx
      simp [hf]
    · rw [hy] at hx
      simp at hx
      subst hx
      rfl

theorem pop_push_cursor (info : TabInfo) : pop_cursor (push_cursor info) = info := by
  unfold push_cursor pop_cursor
  by_cases h : info.titles_i = info.titles.length
  · simp [h]
    cases info
    simp_all
  · simp [h]

/-! ## Title stack -/

theorem title_pop_push (st st1 : State) (term : Nat)
    (h : win_tab_title_push st term = some st1) :
    win_tab_title_pop st1 term = some (st, win_tab_get_title st st.active_tab) := by
  unfold win_tab_title_push at h
  cases hi : tab_by_term st.tabs term with
  | none => simp [hi] at h
  | some i =>
    simp only [hi, Option.some.injEq] at h
    subst h
    have hfind : tab_by_term (modify_tab st.tabs i
        (fun t => { t with info := push_cursor t.info })) term = some i := by
      rw [tab_by_term_modify_tab st.tabs i (fun t => { t with info := push_cursor t.info }) term
        (fun _ => rfl)]
      exact hi
    have hback : modify_tab (modify_tab st.tabs i
        (fun t => { t with info := push_cursor t.info })) i
        (fun t => { t with info := pop_cursor t.info }) = st.tabs := by
      rw [modify_tab_modify_tab]
      apply modify_tab_id
      intro t
      simp [pop_push_cursor]
    simp only [win_tab_title_pop, hfind, hback]

theorem title_pushes_isSome (term : Nat) (k : Nat) (st : State)
    (h : (tab_by_term st.tabs term).isSome) :
    ∃ st1, title_pushes term k st = some st1 ∧ (tab_by_term st1.tabs term).isSome := by
  induction k generalizing st with
  | zero => exact ⟨st, rfl, h⟩
  | succ k ih =>
    cases hi : tab_by_term st.tabs term with
    | none => simp [hi] at h
    | some i =>
      have hnext : (tab_by_term (modify_tab st.tabs i
          (fun t => { t with info := push_cursor t.info })) term).isSome := by
        rw [tab_by_term_modify_tab st.tabs i (fun t => { t with info := push_cursor t.info }) term
          (fun _ => rfl), hi]
        rfl
      obtain ⟨st1, h1, h2⟩ := ih { st with tabs := (modify_tab st.tabs i
          (fun t => { t with info := push_cursor t.info })) } hnext
      refine ⟨st1, ?_, h2⟩
      simp only [title_pushes, win_tab_title_push, hi]
      exact h1

theorem title_pops_snoc (term : Nat) (k : Nat) (st st1 st2 : State) (r : Option String)
    (h1 : title_pops term k st = some st1)
    (h2 : win_tab_title_pop st1 term = some (st2, r)) :
    title_pops term (k + 1) st = some st2 := by
  induction k generalizing st with
  | zero =>
    simp only [title_pops, Option.some.injEq] at h1
    subst h1
    simp [title_pops, h2]
  | succ k ih =>
    simp only [title_pops] at h1
    cases hp : win_tab_title_pop st term with
    | none => simp [hp] at h1
    | some q =>
      simp only [hp] at h1
      have := ih q.1 h1
      rw [title_pops, hp]
      exact this

/-- Claim C10.  Title push/pop round trip: when `term` is the session of some tab,
`k` calls of `win_tab_title_push` succeed, and `k` calls of
`win_tab_title_pop` after them give back the state they started from, so the
cursor of every tab and the current title of every tab are the original
ones; on the cursor, a pop right after a push is the identity. -/
theorem title_push_pop_round_trip (st : State) (term : Nat) (k : Nat)
    (hown : (tab_by_term st.tabs term).isSome) :
    (∃ st1, title_pushes term k st = some st1 ∧ title_pops term k st1 = some st) ∧
    (∀ info : TabInfo, pop_cursor (push_cursor info) = info) := by
  refine ⟨?_, pop_push_cursor⟩
  induction k generalizing st with
  | zero => exact ⟨st, rfl, rfl⟩
  | succ k ih =>
    cases hpush : win_tab_title_push st term with
    | none =>
      unfold win_tab_title_push at hpush
      cases hi : tab_by_term st.tabs term with
      | none => simp [hi] at hown
      | some i => simp [hi] at hpush
    | some sa =>
      have hown1 : (tab_by_term sa.tabs term).isSome := by
        obtain ⟨s, hs, hs2⟩ := title_pushes_isSome term 1 st hown
        simp only [title_pushes, hpush, Option.some.injEq] at hs
        subst hs
        exact hs2
      obtain ⟨st1, h1, h2⟩ := ih sa hown1
      refine ⟨st1, ?_, ?_⟩
      · simp only [title_pushes, hpush]
        exact h1
      · exact title_pops_snoc term k st1 sa st _ h2 (title_pop_push st sa term hpush)

/-- Claim C10, instance: on the two-tab example, three pushes and three pops for
the session of tab B (cursor 1, three slots). -/
theorem title_push_pop_round_trip_witness :
    (tab_by_term exTwoTabs.tabs 20).isSome ∧
    ((∃ st1, title_pushes 20 3 exTwoTabs = some st1 ∧ title_pops 20 3 st1 = some exTwoTabs) ∧
     (∀ info : TabInfo, pop_cursor (push_cursor info) = info)) :=
  ⟨by decide, title_push_pop_round_trip exTwoTabs 20 3 (by decide)⟩

/-- Claim C1.  On the two-tab example with tab A active, `win_tab_title_pop` for the
session of tab B moves the cursor of tab B from 1 to 0, where tab B holds
"b0", but returns "a1", the current title of tab A; `win_tab_restore_title`
then stores "a1" in tab B. -/
theorem title_pop_returns_active_tab_title :
    tab_by_term exTwoTabs.tabs 20 = some 1 ∧
    exTwoTabs.active_tab = 0 ∧
    (win_tab_title_pop exTwoTabs 20).map (fun r => r.2) = some (some "a1") ∧
    (win_tab_title_pop exTwoTabs 20).map (fun r => r.1.tabs.map (fun t => t.info.titles_i))
      = some [1, 0] ∧
    (win_tab_title_pop exTwoTabs 20).map (fun r => win_tab_get_title r.1 1)
      = some (some "b0") ∧
    (win_tab_restore_title exTwoTabs 20).map (fun s => win_tab_get_title s 1)
      = some (some "a1") := by
  decide

/-- Claim C2.  One `win_tab_title_pop` on a freshly constructed tab (cursor 0) sets
the cursor to the capacity of the title array, which is not an index of the
array, and the title read at the cursor does not exist; three pushes on a
fresh tab with three slots reach the same cursor. -/
theorem title_cursor_reaches_capacity (d : Decls) :
    (win_tab_title_pop (exFresh d) 10).map
        (fun r => (r.1.tabs.map (fun t => (t.info.titles_i, t.info.titles.length)), r.2))
      = some ([(d.TITLES, d.TITLES)], none) ∧
    (title_pushes 10 3 (exFresh exDecls)).map
        (fun s => (s.tabs.map (fun t => (t.info.titles_i, t.info.titles.length)),
          win_tab_get_title s 0))
      = some ([(3, 3)], none) := by
  constructor
  · simp [win_tab_title_pop, exFresh, tab_by_term, find_if, modify_tab, Tab.new, pop_cursor,
      win_tab_get_title]
  · decide

/-! ## Callback registry -/

theorem set_erase_of_not_mem (cbs : List CallbackNode) (cb : Callback)
    (h : ∀ n ∈ cbs, n.val ≠ cb) : set_erase cbs cb = cbs := by
  unfold set_erase
  rw [List.filter_eq_self]
  intro n hn
  simp [h n hn]

theorem read_callback_stale (cbs : List CallbackNode) (mem : Nat → Option Callback) (p : Nat)
    (h : ∀ n ∈ cbs, n.addr ≠ p) : read_callback cbs mem p = mem p := by
  unfold read_callback
  have : cbs.find? (fun n => n.addr == p) = none := by
    rw [List.find?_eq_none]
    intro n hn
    simp [h n hn]
  rw [this]

/-- Claim C3, as the code has it.  For a timer id that is the address of no
pending entry, `win_process_timer_message` makes no lookup: when the tuple
read through the id is `cb`, the function of `cb` is called once with the
context of `cb` and `cb` is erased from the set, which leaves the set as it
was when `cb` is not pending; when the read faults there is no result. -/
theorem fire_stale_handle (st : State) (mem : Nat → Option Callback) (message : Nat)
    (hstale : ∀ n ∈ st.callbacks, n.addr ≠ message) :
    (∀ cb, mem message = some cb →
      win_process_timer_message st mem message
          = some ({ st with callbacks := set_erase st.callbacks cb }, [cb]) ∧
      ((∀ n ∈ st.callbacks, n.val ≠ cb) →
        win_process_timer_message st mem message = some (st, [cb]))) ∧
    (mem message = none → win_process_timer_message st mem message = none) := by
  have hread := read_callback_stale st.callbacks mem message hstale
  refine ⟨fun cb hcb => ⟨?_, fun hnot => ?_⟩, fun hnone => ?_⟩
  · simp [win_process_timer_message, hread, hcb]
  · simp [win_process_timer_message, hread, hcb, set_erase_of_not_mem _ _ hnot]
  · simp [win_process_timer_message, hread, hnone]

/-- Claim C3, instance: empty registry, timer id 64, the memory of the example. -/
theorem fire_stale_handle_witness :
    (∀ n ∈ exTwoTabs.callbacks, n.addr ≠ 64) ∧
    ((∀ cb, exStaleMem 64 = some cb →
      win_process_timer_message exTwoTabs exStaleMem 64
          = some ({ exTwoTabs with callbacks := set_erase exTwoTabs.callbacks cb }, [cb]) ∧
      ((∀ n ∈ exTwoTabs.callbacks, n.val ≠ cb) →
        win_process_timer_message exTwoTabs exStaleMem 64 = some (exTwoTabs, [cb]))) ∧
    (exStaleMem 64 = none → win_process_timer_message exTwoTabs exStaleMem 64 = none)) :=
  ⟨by simp [exTwoTabs], fire_stale_handle exTwoTabs exStaleMem 64 (by simp [exTwoTabs])⟩

/-- Claim C3, refuted as stated.  With one callback pending at timer id 64,
the first fire calls it and empties the registry; id 64 then has no pending
entry, and a second fire of it on the resulting state calls the callback
again. -/
theorem stale_fire_calls_back :
    (win_process_timer_message exPending exStaleMem 64).map
        (fun r => (r.1.callbacks, r.2)) = some ([], [⟨1, 7⟩]) ∧
    ((win_process_timer_message exPending exStaleMem 64).bind
        (fun r => win_process_timer_message r.1 exStaleMem 64)).map
        (fun r => (r.1.callbacks, r.2)) = some ([], [⟨1, 7⟩]) := by
  decide

/-! ## Layout arithmetic -/

theorem tabwidth_eq_min (W : Int) (N P : Nat) (hW0 : 0 ≤ W) (hW : W < 2147483648) :
    tabwidth W N P = min (P : Int) (W / (N : Int)) := by
  unfold tabwidth u64 i32
  have h1 : W % 18446744073709551616 = W := by omega
  rw [h1]
  have hq : ((W.toNat / N : Nat) : Int) = W / (N : Int) := by
    rw [Int.ofNat_ediv, Int.toNat_of_nonneg hW0]
  have hle : W.toNat / N ≤ W.toNat := Nat.div_le_self _ _
  generalize hqq : W.toNat / N = q at hq hle
  rw [← hq]
  by_cases hc : q > P
  · simp only [hc, if_true]
    omega
  · simp only [hc, if_false]
    omega

/-- Claim C9.  For a tab count `N ≥ 1`, a preferred width `P` and an available
width `W ≥ 0` (an `int`), the value of line 378 is `min P (W / N)` with
integer division, hence at most `P`; and `win_paint_tabs`, when the tab bar
is visible, stores exactly this value in `tab_paint_width`, with `N` the
number of tabs, `W` the width left after line 370 and `P` the scaled
preferred width. -/
theorem tab_width_is_min (d : Decls) (st : State) (width : Int) (W : Int) (N P : Nat)
    (hN : 1 ≤ N) (hW0 : 0 ≤ W) (hW : W < 2147483648) :
    tabwidth W N P = min (P : Int) (W / (N : Int)) ∧
    tabwidth W N P ≤ (P : Int) ∧
    (st.tab_bar_visible = true → st.tabs.length = N → paint_width d st width = W →
      preferred_width st = P →
      ∃ st1, win_paint_tabs d st width = some st1 ∧
        st1.tab_paint_width = min (P : Int) (W / (N : Int))) := by
  have h := tabwidth_eq_min W N P hW0 hW
  refine ⟨h, ?_, ?_⟩
  · rw [h]; exact min_le_left _ _
  · intro hvis hlen hpw hpref
    have hne : ¬ st.tabs.length = 0 := by omega
    refine ⟨init_scale_factors { st with tab_paint_width :=
      (tabwidth (paint_width d st width) st.tabs.length (preferred_width st)) }, ?_, ?_⟩
    · simp [win_paint_tabs, hvis, hne]
    · simp only [init_scale_factors, hlen, hpw, hpref]
      exact h

/-- Claim C9, instances: four tabs, preferred width 200, 600 available give
150; two tabs, preferred width 200, 1000 available give 200, which is what
`win_paint_tabs` stores for the two-tab example at scale 1 when called with
width 1013 (1000 are left after line 370). -/
theorem tab_width_is_min_witness :
    ((1 ≤ 4 ∧ (0 : Int) ≤ 600 ∧ (600 : Int) < 2147483648) ∧
      tabwidth 600 4 200 = min ((200 : Nat) : Int) (600 / ((4 : Nat) : Int)) ∧
      tabwidth 600 4 200 = 150) ∧
    (tabwidth 1000 2 200 = min ((200 : Nat) : Int) (1000 / ((2 : Nat) : Int)) ∧
      tabwidth 1000 2 200 = 200) ∧
    (∃ st1, win_paint_tabs exDecls exTwoTabs 1013 = some st1 ∧
      st1.tab_paint_width = min ((200 : Nat) : Int) (1000 / ((2 : Nat) : Int))) :=
  ⟨⟨by decide,
    (tab_width_is_min exDecls exTwoTabs 0 600 4 200 (by decide) (by decide) (by decide)).1,
    by decide⟩,
   ⟨(tab_width_is_min exDecls exTwoTabs 0 1000 2 200 (by decide) (by decide) (by decide)).1,
    by decide⟩,
   (tab_width_is_min exDecls exTwoTabs 1013 1000 2 200 (by decide) (by decide) (by decide)).2.2
    rfl rfl
    (by decide) (by decide)⟩

/-! ## Activation -/

theorem getElem?_focus_loop (active : Nat) (l : List Tab) (k m : Nat) :
    (focus_loop active l k)[m]? =
      (l[m]?).map (fun t => { t with has_focus := decide (k + m = active) }) := by
  induction l generalizing k m with
  | nil => simp [focus_loop]
  | cons t ts ih =>
    cases m with
    | zero => simp [focus_loop]
    | succ m =>
      simp only [focus_loop, List.getElem?_cons_succ]
      rw [ih]
      have : k + 1 + m = k + (m + 1) := by omega
      rw [this]

theorem length_focus_loop (active : Nat) (l : List Tab) (k : Nat) :
    (focus_loop active l k).length = l.length := by
  induction l generalizing k with
  | nil => simp [focus_loop]
  | cons t ts ih => simp [focus_loop, ih]

theorem set_active_tab_spec (st : State) (index : Nat) (h : index < st.tabs.length) :
    ∃ st1, set_active_tab st index = some st1 ∧
      st1.active_tab = index ∧
      st1.tabs.length = st.tabs.length ∧
      (∀ m : Nat, st1.tabs[m]? = (st.tabs[m]?).map (refreshed index m)) ∧
      st1.callbacks = st.callbacks ∧
      st1.tab_paint_width = st.tab_paint_width ∧
      st1.tab_bar_visible = st.tab_bar_visible ∧
      st1.g_xscale = st.g_xscale ∧ st1.g_yscale = st.g_yscale ∧
      st1.terminated = st.terminated ∧
      st1.invalidations = st.invalidations + 1 := by
  refine ⟨win_invalidate_all { st with active_tab := index, tabs := (modify_tab
      (focus_loop index st.tabs 0) index
      (fun t => { t with info := { t.info with attention := false } })) },
    by simp only [set_active_tab, h, if_true], rfl, ?_, ?_, rfl, rfl, rfl, rfl, rfl, rfl, rfl⟩
  · simp [win_invalidate_all, length_modify_tab, length_focus_loop]
  · intro m
    simp only [win_invalidate_all, getElem?_modify_tab, getElem?_focus_loop]
    by_cases hm : m = index
    · subst hm
      cases st.tabs[m]? <;> simp [refreshed]
    · cases st.tabs[m]? <;> simp [refreshed, hm]

theorem set_active_tab_none (st : State) (index : Nat) (h : ¬ index < st.tabs.length) :
    set_active_tab st index = none := by
  simp [set_active_tab, h]

/-! ## Hit-testing -/

theorem click_tab_eq (st : State) (x : Int) (htw : 0 < st.tab_paint_width) (hx0 : 0 ≤ x)
    (hx : x < 2147483648) : (click_tab st x : Int) = x / st.tab_paint_width := by
  unfold click_tab u32
  rw [Int.tdiv_eq_ediv hx0 (le_of_lt htw)]
  have h0 : 0 ≤ x / st.tab_paint_width := Int.ediv_nonneg hx0 (le_of_lt htw)
  have h1 : x / st.tab_paint_width ≤ x := Int.ediv_le_self _ hx0
  generalize x / st.tab_paint_width = q at h0 h1
  omega

/-- Claim C8.  Hit-testing agrees with the layout rectangles.  For a stored tab
width `tw > 0` and a pointer coordinate `0 ≤ x` (an `int`), the index computed
by `win_tab_mouse_click` is `x / tw`; it is a given tab `i` exactly when
`i < N` and `i * tw ≤ x < (i + 1) * tw`; it is at least the number of tabs `N`
exactly when `N * tw ≤ x`.  In the first case the call activates the tab at
that index, in the second it takes the branch of the overflow region, which
creates a tab on a release left of the add button and does nothing else. -/
theorem hit_test_agrees_with_layout (d : Decls) (st : State) (down : Bool) (x : Int)
    (terminal chld pid : Nat) (title : String)
    (htw : 0 < st.tab_paint_width) (hx0 : 0 ≤ x) (hx : x < 2147483648) :
    (click_tab st x : Int) = x / st.tab_paint_width ∧
    (∀ i : Nat, (click_tab st x = i ∧ i < st.tabs.length) ↔
      (i < st.tabs.length ∧ (i : Int) * st.tab_paint_width ≤ x ∧
        x < ((i : Int) + 1) * st.tab_paint_width)) ∧
    (st.tabs.length ≤ click_tab st x ↔ (st.tabs.length : Int) * st.tab_paint_width ≤ x) ∧
    (x < (st.tabs.length : Int) * st.tab_paint_width →
      ∃ st1, win_tab_mouse_click d st down x terminal chld pid title = some st1 ∧
        st1.active_tab = click_tab st x) ∧
    ((st.tabs.length : Int) * st.tab_paint_width ≤ x →
      win_tab_mouse_click d st down x terminal chld pid title =
        if !down && click_add st x then win_tab_create d st terminal chld pid title
        else some st) := by
  have hq := click_tab_eq st x htw hx0 hx
  have hge : ∀ n : Nat, n ≤ click_tab st x ↔ (n : Int) * st.tab_paint_width ≤ x := by
    intro n
    have := @Int.le_ediv_iff_mul_le (n : Int) x st.tab_paint_width htw
    rw [← hq] at this
    rw [← this]
    exact Int.ofNat_le.symm
  have hne : ¬ st.tab_paint_width = 0 := by omega
  refine ⟨hq, ?_, hge _, ?_, ?_⟩
  · intro i
    have h1 := hge i
    have h2 := hge (i + 1)
    have h3 : ((i + 1 : Nat) : Int) = (i : Int) + 1 := by push_cast; rfl
    rw [h3] at h2
    constructor
    · rintro ⟨he, hi⟩
      refine ⟨hi, h1.1 (by omega), ?_⟩
      by_contra hcon
      have := h2.2 (by omega)
      omega
    · rintro ⟨hi, ha, hb⟩
      have := h1.2 ha
      have : ¬ (i + 1 ≤ click_tab st x) := fun hc => by
        have := h2.1 hc
        omega
      exact ⟨by omega, hi⟩
  · intro hlt
    have hin : click_tab st x < st.tabs.length := by
      by_contra hcon
      have := (hge st.tabs.length).1 (by omega)
      omega
    obtain ⟨st1, hs, hact, hlen, _⟩ := set_active_tab_spec st (click_tab st x) hin
    have hnot : ¬ (click_tab st x ≥ st.tabs.length) := by omega
    have hget : ∃ t, st1.tabs[st1.active_tab]? = some t := by
      have : st1.active_tab < st1.tabs.length := by omega
      exact ⟨st1.tabs[st1.active_tab], List.getElem?_eq_getElem this⟩
    obtain ⟨t, ht⟩ := hget
    simp only [win_tab_mouse_click, hne, if_false, hnot, hs]
    cases down
    · exact ⟨st1, by simp, hact⟩
    · by_cases hc : click_close st1 x (click_tab st x) = true
      · refine ⟨{ st1 with terminated := st1.terminated ++ [t.chld] }, ?_, hact⟩
        simp [hc, win_tab_close, ht]
      · exact ⟨st1, by simp [hc], hact⟩
  · intro hle
    have hin : click_tab st x ≥ st.tabs.length := (hge st.tabs.length).2 hle
    simp only [win_tab_mouse_click, hne, if_false, hin, if_true]
    cases down <;> cases click_add st x <;> simp

/-- Claim C8, instances: four tabs of width 150 and `x = 170` address tab 1; two
tabs of width 200 and `x = 900` are in the overflow region. -/
theorem hit_test_agrees_with_layout_witness :
    ((0 : Int) < exFourTabs.tab_paint_width ∧ (0 : Int) ≤ 170 ∧ (170 : Int) < 2147483648) ∧
    ((click_tab exFourTabs 170 : Int) = 170 / exFourTabs.tab_paint_width ∧
      click_tab exFourTabs 170 = 1 ∧
      (win_tab_mouse_click exDecls exFourTabs false 170 50 51 9 "sh").map
        (fun s => s.active_tab) = some 1) ∧
    (exWideTabs.tabs.length ≤ click_tab exWideTabs 900 ∧
      win_tab_mouse_click exDecls exWideTabs true 900 50 51 9 "sh" = some exWideTabs) :=
  ⟨by decide,
   ⟨(hit_test_agrees_with_layout exDecls exFourTabs false 170 50 51 9 "sh"
      (by decide) (by decide) (by decide)).1, by decide, by decide⟩,
   by decide, by decide⟩

/-! ## Reaping -/

theorem shift_down_eq (cur : Tab) (rest : List Tab) : shift_down cur rest = rest := by
  induction rest generalizing cur with
  | nil => rfl
  | cons t ts ih => simp [shift_down, Tab.move_assign, ih]

theorem vector_erase_eq (l : List Tab) (i : Nat) : vector_erase l i = l.eraseIdx i := by
  induction l generalizing i with
  | nil => simp [vector_erase]
  | cons t ts ih =>
    cases i with
    | zero => simp [vector_erase, shift_down_eq]
    | succ i => simp [vector_erase, ih]

theorem find_if_some_erase {α : Type} (p : α → Bool) (l : List α) (i : Nat)
    (h : find_if p l = some i) :
    ∃ x, l[i]? = some x ∧ p x = true ∧
      (l.eraseIdx i).filter (fun y => !p y) = l.filter (fun y => !p y) ∧
      l.filter p = x :: (l.eraseIdx i).filter p ∧
      (l.eraseIdx i).length + 1 = l.length := by
  induction l generalizing i with
  | nil => simp [find_if] at h
  | cons a as ih =>
    simp only [find_if] at h
    by_cases hp : p a = true
    · simp only [hp, if_true, Option.some.injEq] at h
      subst h
      exact ⟨a, by simp, hp, by simp [hp], by simp [hp], by simp⟩
    · simp only [hp] at h
      cases hf : find_if p as with
      | none => simp [hf] at h
      | some j =>
        simp [hf] at h
        subst h
        obtain ⟨x, h1, h2, h3, h4, h5⟩ := ih j hf
        refine ⟨x, by simpa using h1, h2, ?_, ?_, ?_⟩
        · simp [List.eraseIdx, hp, h3]
        · simp [List.eraseIdx, hp, h4]
        · simp [List.eraseIdx, h5]

theorem purge_loop_eq (fuel : Nat) (cbs : List CallbackNode) (term : Nat)
    (h : cbs.length < fuel) :
    purge_loop fuel cbs term = some (cbs.filter (fun n => !(n.val.data == term))) := by
  induction fuel generalizing cbs with
  | zero => omega
  | succ fuel ih =>
    cases hf : find_if (fun x : CallbackNode => x.val.data == term) cbs with
    | none =>
      have hall := (find_if_none _ _).1 hf
      simp only [purge_loop, hf]
      congr 1
      symm
      rw [List.filter_eq_self]
      intro n hn
      simpa using hall n hn
    | some k =>
      obtain ⟨x, _, _, h3, _, h5⟩ := find_if_some_erase _ _ _ hf
      simp only [purge_loop, hf]
      rw [ih (cbs.eraseIdx k) (by omega)]
      exact congrArg some h3

theorem clean_loop_eq (fuel : Nat) (st : State) (invalidate : Bool)
    (h : st.tabs.length < fuel) :
    clean_loop fuel st invalidate =
      some ({ st with
              callbacks := st.callbacks.filter
                (fun n => !(dead_terms st.tabs).contains n.val.data),
              tabs := st.tabs.filter (fun t => !(t.pid == 0)) },
            invalidate || st.tabs.any (fun t => t.pid == 0)) := by
  induction fuel generalizing st invalidate with
  | zero => omega
  | succ fuel ih =>
    cases hf : find_if (fun x : Tab => x.pid == 0) st.tabs with
    | none =>
      have hall := (find_if_none _ _).1 hf
      have h1 : st.tabs.filter (fun t => !(t.pid == 0)) = st.tabs := by
        rw [List.filter_eq_self]
        intro t ht
        simpa using hall t ht
      have h2 : st.tabs.filter (fun t => t.pid == 0) = [] := by
        rw [List.filter_eq_nil_iff]
        intro t ht
        simpa using hall t ht
      have h3 : st.tabs.any (fun t => t.pid == 0) = false := by
        rw [List.any_eq_false]
        intro t ht
        simpa using hall t ht
      simp only [clean_loop, hf, dead_terms, h1, h2, h3]
      simp
    | some i =>
      obtain ⟨x, hx, hpx, e3, e4, e5⟩ := find_if_some_erase _ _ _ hf
      have hany : st.tabs.any (fun t => t.pid == 0) = true := by
        rw [List.any_eq_true]
        exact ⟨x, List.getElem?_mem hx, hpx⟩
      simp only [clean_loop, hf, hx]
      rw [purge_loop_eq _ _ _ (Nat.lt_succ_self _)]
      simp only [vector_erase_eq]
      rw [ih _ _ (by simp only; omega)]
      simp only [dead_terms, e3, e4, hany, List.map_cons, List.filter_filter, Bool.or_true,
        Bool.true_or]
      congr 3
      apply List.filter_congr
      intro n _
      simp [List.contains_cons, Bool.and_comm]

theorem set_tab_bar_visibility_frame (st st1 : State) (b : Bool)
    (h : set_tab_bar_visibility st b = some st1) :
    st1.tabs = st.tabs ∧ st1.active_tab = st.active_tab ∧ st1.callbacks = st.callbacks ∧
      st1.tab_paint_width = st.tab_paint_width := by
  unfold set_tab_bar_visibility at h
  split at h
  · simp only [Option.some.injEq] at h
    subst h
    exact ⟨rfl, rfl, rfl, rfl⟩
  · cases b
    · simp only [Bool.false_eq_true, if_false] at h
      split at h
      · simp only [Option.some.injEq] at h
        subst h
        exact ⟨rfl, rfl, rfl, rfl⟩
      · simp at h
    · simp only [if_true] at h
      split at h
      · simp only [Option.some.injEq] at h
        subst h
        exact ⟨rfl, rfl, rfl, rfl⟩
      · simp at h

theorem set_tab_bar_visibility_isSome (st : State) (b : Bool)
    (h : st.active_tab < st.tabs.length) : ∃ st1, set_tab_bar_visibility st b = some st1 := by
  unfold set_tab_bar_visibility
  split
  · exact ⟨_, rfl⟩
  · have h2 : (if b = true then init_scale_factors { st with tab_bar_visible := b }
        else { st with tab_bar_visible := b }).active_tab
        < (if b = true then init_scale_factors { st with tab_bar_visible := b }
        else { st with tab_bar_visible := b }).tabs.length := by
      cases b <;> exact h
    simp only [h2, if_true]
    exact ⟨_, rfl⟩

theorem u32_pred_le (n : Nat) (h : 0 < n) : u32 ((n : Int) - 1) < n := by
  unfold u32
  omega

theorem u32_pred_eq (n : Nat) (h : 0 < n) (hn : n ≤ 4294967296) :
    u32 ((n : Int) - 1) = n - 1 := by
  unfold u32
  omega

/-- The index that `win_tab_clean` re-activates when `n` tabs are left. -/
theorem clean_index_lt (a n : Nat) (h : 0 < n) :
    (if a ≥ n then u32 ((n : Int) - 1) else a) < n := by
  split
  · exact u32_pred_le n h
  · omega

theorem win_tab_clean_spec (st : State) :
    ∃ st1, win_tab_clean st = some st1 ∧
      st1.callbacks = st.callbacks.filter (fun n => !(dead_terms st.tabs).contains n.val.data) ∧
      st1.tabs.length = (st.tabs.filter (fun t => !(t.pid == 0))).length ∧
      st1.tab_paint_width = st.tab_paint_width ∧
      ((∀ t ∈ st.tabs, t.pid ≠ 0) → st1 = st) ∧
      ((∃ t ∈ st.tabs, t.pid = 0) → st.tabs.filter (fun t => !(t.pid == 0)) = [] →
        st1.tabs = [] ∧ st1.active_tab = st.active_tab) ∧
      ((∃ t ∈ st.tabs, t.pid = 0) → st.tabs.filter (fun t => !(t.pid == 0)) ≠ [] →
        st1.active_tab =
          (if st.active_tab ≥ (st.tabs.filter (fun t => !(t.pid == 0))).length then
            u32 (((st.tabs.filter (fun t => !(t.pid == 0))).length : Int) - 1)
           else st.active_tab) ∧
        ∀ m : Nat, st1.tabs[m]? =
          ((st.tabs.filter (fun t => !(t.pid == 0)))[m]?).map (refreshed st1.active_tab m)) := by
  have hloop := clean_loop_eq (st.tabs.length + 1) st false (Nat.lt_succ_self _)
  generalize halive : st.tabs.filter (fun t => !(t.pid == 0)) = alive at hloop ⊢
  generalize hcbs : st.callbacks.filter
    (fun n => !(dead_terms st.tabs).contains n.val.data) = cbs at hloop ⊢
  by_cases hdead : ∃ t ∈ st.tabs, t.pid = 0
  · have hany : st.tabs.any (fun t => t.pid == 0) = true := by
      rw [List.any_eq_true]
      obtain ⟨t, ht, hp⟩ := hdead
      exact ⟨t, ht, by simp [hp]⟩
    have hnot : ¬ ∀ t ∈ st.tabs, t.pid ≠ 0 := by
      intro hall
      obtain ⟨t, ht, hp⟩ := hdead
      exact hall t ht hp
    rw [hany] at hloop
    by_cases hne : alive = []
    · refine ⟨{ st with callbacks := cbs, tabs := alive }, ?_, rfl, rfl, rfl,
        fun hall => absurd hall hnot, fun _ _ => ⟨hne, rfl⟩, fun _ h => absurd hne h⟩
      simp [win_tab_clean, hloop, hne]
    · have hpos : 0 < alive.length := List.length_pos.2 hne
      have hidx := clean_index_lt st.active_tab alive.length hpos
      obtain ⟨st2, hs2, hact2, hlen2, htabs2, hcb2, hpw2, _⟩ :=
        set_active_tab_spec { st with callbacks := cbs, tabs := alive }
          (if st.active_tab ≥ alive.length then u32 ((alive.length : Int) - 1)
            else st.active_tab) hidx
      obtain ⟨st3, hs3⟩ := set_tab_bar_visibility_isSome st2 (decide (st2.tabs.length > 1))
        (by rw [hact2, hlen2]; exact hidx)
      obtain ⟨f1, f2, f3, f4⟩ := set_tab_bar_visibility_frame _ _ _ hs3
      have hrun : win_tab_clean st = some (win_invalidate_all st3) := by
        simp only [win_tab_clean, hloop]
        by_cases hge : st.active_tab ≥ alive.length
        · simp only [hge, if_true] at hs2
          simp [hpos, hge, hs2, hs3]
        · simp only [hge, if_false] at hs2
          simp [hpos, hge, hs2, hs3]
      refine ⟨win_invalidate_all st3, hrun, ?_, ?_, ?_, fun hall => absurd hall hnot,
        fun _ h => absurd h hne, fun _ _ => ⟨?_, ?_⟩⟩
      · simp only [win_invalidate_all]; rw [f3, hcb2]
      · simp only [win_invalidate_all]; rw [f1, hlen2]
      · simp only [win_invalidate_all]; rw [f4, hpw2]
      · simp only [win_invalidate_all]; rw [f2, hact2]
      · intro m
        simp only [win_invalidate_all]
        rw [f1, f2, hact2, htabs2 m]
  · have hall : ∀ t ∈ st.tabs, t.pid ≠ 0 := by
      intro t ht hp
      exact hdead ⟨t, ht, hp⟩
    have hany : st.tabs.any (fun t => t.pid == 0) = false := by
      rw [List.any_eq_false]
      intro t ht
      simpa using hall t ht
    have h1 : alive = st.tabs := by
      rw [← halive, List.filter_eq_self]
      intro t ht
      simpa using hall t ht
    have h2 : cbs = st.callbacks := by
      have : dead_terms st.tabs = [] := by
        unfold dead_terms
        rw [List.map_eq_nil_iff, List.filter_eq_nil_iff]
        intro t ht
        simpa using hall t ht
      rw [← hcbs, this, List.filter_eq_self]
      intro n _
      simp
    rw [hany] at hloop
    subst h1 h2
    refine ⟨st, ?_, rfl, rfl, rfl, fun _ => rfl, fun h => absurd h hdead,
      fun h => absurd h hdead⟩
    simp [win_tab_clean, hloop]

theorem session_refreshed (index k : Nat) (t : Tab) :
    (refreshed index k t).session = t.session := rfl

/-- Claim C4.  Post-state of `win_tab_clean` for a tab list of representable
length.  The call returns; the tabs left are exactly the tabs whose `pid` is
not 0, in their original order, and every tab other than the active one
keeps its attention flag.  If some tab had `pid` 0 and tabs are left, the
active index is the old one when that is below the new length and the last
index otherwise, and the tab there has its attention flag cleared.  If no
tab has `pid` 0 the whole state, repaint counter included, is unchanged. -/
theorem reap_post_state (st : State) (hlen : st.tabs.length < 4294967296) :
    ∃ st1, win_tab_clean st = some st1 ∧
      st1.tabs.map Tab.session
        = (st.tabs.filter (fun t => !(t.pid == 0))).map Tab.session ∧
      (∀ m : Nat, m ≠ st1.active_tab →
        (st1.tabs[m]?).map (fun t => t.info.attention)
          = ((st.tabs.filter (fun t => !(t.pid == 0)))[m]?).map (fun t => t.info.attention)) ∧
      ((∃ t ∈ st.tabs, t.pid = 0) → st1.tabs ≠ [] →
        st1.active_tab
          = (if st.active_tab < st1.tabs.length then st.active_tab else st1.tabs.length - 1) ∧
        ∃ t, st1.tabs[st1.active_tab]? = some t ∧ t.info.attention = false) ∧
      ((∀ t ∈ st.tabs, t.pid ≠ 0) → st1 = st) := by
  obtain ⟨st1, hrun, _, hl, _, hsame, hempty, hsome⟩ := win_tab_clean_spec st
  have hfl : (st.tabs.filter (fun t => !(t.pid == 0))).length ≤ st.tabs.length :=
    List.length_filter_le _ _
  refine ⟨st1, hrun, ?_, ?_, ?_, hsame⟩
  · by_cases hdead : ∃ t ∈ st.tabs, t.pid = 0
    · by_cases hne : st.tabs.filter (fun t => !(t.pid == 0)) = []
      · rw [(hempty hdead hne).1, hne]
      · apply List.ext_getElem?
        intro m
        rw [List.getElem?_map, List.getElem?_map, (hsome hdead hne).2 m]
        cases (st.tabs.filter (fun t => !(t.pid == 0)))[m]? <;> simp [session_refreshed]
    · have hall : ∀ t ∈ st.tabs, t.pid ≠ 0 := fun t ht hp => hdead ⟨t, ht, hp⟩
      have hf : st.tabs.filter (fun t => !(t.pid == 0)) = st.tabs := by
        rw [List.filter_eq_self]
        intro t ht
        simpa using hall t ht
      rw [hsame hall, hf]
  · intro m hm
    by_cases hdead : ∃ t ∈ st.tabs, t.pid = 0
    · by_cases hne : st.tabs.filter (fun t => !(t.pid == 0)) = []
      · rw [(hempty hdead hne).1, hne]
      · rw [(hsome hdead hne).2 m]
        cases (st.tabs.filter (fun t => !(t.pid == 0)))[m]? <;> simp [refreshed, hm]
    · have hall : ∀ t ∈ st.tabs, t.pid ≠ 0 := fun t ht hp => hdead ⟨t, ht, hp⟩
      have hf : st.tabs.filter (fun t => !(t.pid == 0)) = st.tabs := by
        rw [List.filter_eq_self]
        intro t ht
        simpa using hall t ht
      rw [hsame hall, hf]
  · intro hdead hne1
    have hne : st.tabs.filter (fun t => !(t.pid == 0)) ≠ [] := by
      intro h
      exact hne1 (hempty hdead h).1
    obtain ⟨hact, htabs⟩ := hsome hdead hne
    have hpos : 0 < (st.tabs.filter (fun t => !(t.pid == 0))).length := List.length_pos.2 hne
    have hu := u32_pred_eq _ hpos (by omega)
    have hidx := clean_index_lt st.active_tab _ hpos
    rw [← hact] at hidx
    constructor
    · rw [hact, hl, hu]
      split <;> split <;> omega
    · have hget := htabs st1.active_tab
      rw [List.getElem?_eq_getElem hidx] at hget
      exact ⟨_, hget, by simp [refreshed]⟩

/-- Claim C4, instance: tabs A and B with A active and the process of B
terminated leave tab A alone, active, with one more repaint requested than
before; with both processes alive the state is returned as it was. -/
theorem reap_post_state_witness :
    exDeadB.tabs.length < 4294967296 ∧
    (∃ st1, win_tab_clean exDeadB = some st1 ∧
      st1.tabs.map Tab.session
        = (exDeadB.tabs.filter (fun t => !(t.pid == 0))).map Tab.session ∧
      (∀ m : Nat, m ≠ st1.active_tab →
        (st1.tabs[m]?).map (fun t => t.info.attention)
          = ((exDeadB.tabs.filter (fun t => !(t.pid == 0)))[m]?).map
              (fun t => t.info.attention)) ∧
      ((∃ t ∈ exDeadB.tabs, t.pid = 0) → st1.tabs ≠ [] →
        st1.active_tab
          = (if exDeadB.active_tab < st1.tabs.length then exDeadB.active_tab
             else st1.tabs.length - 1) ∧
        ∃ t, st1.tabs[st1.active_tab]? = some t ∧ t.info.attention = false) ∧
      ((∀ t ∈ exDeadB.tabs, t.pid ≠ 0) → st1 = exDeadB)) ∧
    (win_tab_clean exDeadB).map (fun s => (s.tabs.map (fun t => t.terminal), s.active_tab))
      = some ([10], 0) ∧
    win_tab_clean exTwoTabs = some exTwoTabs :=
  ⟨by decide, reap_post_state exDeadB (by decide), by decide, by decide⟩

/-- Claim C7.  `win_tab_clean` purges exactly the callbacks of the reaped
sessions: the call returns, and a callback is pending afterwards exactly when
it was pending before and its context is not the terminal of a tab whose
`pid` is 0 (the tabs that are removed).  In the example, three callbacks of
the reaped session 20 and one of session 10 leave exactly that one. -/
theorem reap_purges_callbacks (st : State) :
    (∃ st1, win_tab_clean st = some st1 ∧
      ∀ n : CallbackNode, n ∈ st1.callbacks ↔
        (n ∈ st.callbacks ∧ ∀ t ∈ st.tabs, t.pid = 0 → n.val.data ≠ t.terminal)) ∧
    (win_tab_clean exDeadB).map (fun s => s.callbacks) = some [⟨96, ⟨2, 10⟩⟩] := by
  refine ⟨?_, by decide⟩
  obtain ⟨st1, hrun, hcb, _⟩ := win_tab_clean_spec st
  refine ⟨st1, hrun, fun n => ?_⟩
  rw [hcb, List.mem_filter]
  have : (!(dead_terms st.tabs).contains n.val.data) = true ↔
      ∀ t ∈ st.tabs, t.pid = 0 → n.val.data ≠ t.terminal := by
    simp only [dead_terms, Bool.not_eq_true', List.contains_eq_any_beq, List.any_eq_false,
      List.mem_map, List.mem_filter, beq_iff_eq]
    constructor
    · intro h t ht hp heq
      exact h t.terminal ⟨t, ⟨ht, hp⟩, rfl⟩ (by simp [heq])
    · rintro h x ⟨t, ⟨ht, hp⟩, rfl⟩
      have := h t ht hp
      simpa using this
  rw [this]

/-! ## Navigation and reordering -/

theorem rel_index_lt (st : State) (change : Int) (h : 0 < st.tabs.length) :
    ∃ j, rel_index st change = some j ∧ j < st.tabs.length := by
  have hne : ¬ st.tabs.length = 0 := by omega
  have hmod := Nat.mod_lt (u64 (↑(u64 (i32 (i32 ↑st.active_tab + change))) + ↑st.tabs.length)) h
  refine ⟨u32 ((u64 (↑(u64 (i32 (i32 ↑st.active_tab + change))) + ↑st.tabs.length)
    % st.tabs.length : Nat) : Int), by simp only [rel_index, hne, if_false], ?_⟩
  generalize u64 (↑(u64 (i32 (i32 ↑st.active_tab + change))) + ↑st.tabs.length)
    % st.tabs.length = r at hmod
  unfold u32
  omega

theorem swap_tabs_spec (l : List Tab) (a j : Nat) (ha : a < l.length) (hj : j < l.length) :
    ∃ l1, swap_tabs l a j = some l1 ∧ l1.length = l.length ∧
      ∀ m : Nat, l1[m]? = l[exchanged a j m]? := by
  have hga : l[a]? = some l[a] := List.getElem?_eq_getElem ha
  have hgj : l[j]? = some l[j] := List.getElem?_eq_getElem hj
  by_cases haj : a = j
  · subst haj
    refine ⟨l.set a l[a], ?_, by simp, ?_⟩
    · simp [swap_tabs, hga, Tab.move_ctor, Tab.move_assign, Tab.move_assign_self]
    · intro m
      unfold exchanged
      by_cases hm : m = a
      · subst hm; simp [List.getElem?_set, ha, hga]
      · have : ¬ a = m := fun e => hm e.symm
        simp [hm, List.getElem?_set, this]
  · refine ⟨(l.set a l[j]).set j l[a], ?_, by simp, ?_⟩
    · simp [swap_tabs, hga, hgj, haj, Tab.move_ctor, Tab.move_assign]
    · intro m
      unfold exchanged
      by_cases hmj : m = j
      · subst hmj
        simp [List.getElem?_set, hga, hj]
      · have h1 : ¬ j = m := fun e => hmj e.symm
        by_cases hma : m = a
        · subst hma
          simp [List.getElem?_set, h1, hmj, hgj, ha]
        · have h2 : ¬ a = m := fun e => hma e.symm
          simp [List.getElem?_set, h1, h2, hmj, hma]

/-- Claim C5.  For a collection with valid active index `a` and every `delta`,
`win_tab_move` returns; with `j` the value of `rel_index`, position `j` now
holds the tab that was at `a`, position `a` the tab that was at `j`, every
other position its old tab (each as `set_active_tab` leaves it: session,
process and title stack untouched, focus on `j` only, attention cleared at
`j`), and the active index is `j`, so the tab that was active is the active
tab afterwards. -/
theorem move_exchanges_active (st : State) (delta : Int)
    (ha : st.active_tab < st.tabs.length) :
    ∃ j st1, rel_index st delta = some j ∧ j < st.tabs.length ∧
      win_tab_move st delta = some st1 ∧
      st1.active_tab = j ∧
      st1.tabs.length = st.tabs.length ∧
      (∀ m : Nat, st1.tabs[m]?
        = (st.tabs[exchanged st.active_tab j m]?).map (refreshed j m)) ∧
      (st1.tabs[st1.active_tab]?).map Tab.session
        = (st.tabs[st.active_tab]?).map Tab.session := by
  have hpos : 0 < st.tabs.length := by omega
  obtain ⟨j, hj, hjlt⟩ := rel_index_lt st delta hpos
  obtain ⟨l1, hswap, hlen1, hget1⟩ := swap_tabs_spec st.tabs st.active_tab j ha hjlt
  obtain ⟨st1, hs, hact, hlen, htabs, _⟩ :=
    set_active_tab_spec { st with tabs := l1 } j (by simp only; omega)
  refine ⟨j, st1, hj, hjlt, ?_, hact, by rw [hlen]; exact hlen1, ?_, ?_⟩
  · simp only [win_tab_move, hj, hswap]
    exact hs
  · intro m
    rw [htabs m]
    simp only
    rw [hget1 m]
  · rw [hact, htabs j]
    simp only
    rw [hget1 j]
    have : exchanged st.active_tab j j = st.active_tab := by simp [exchanged]
    rw [this]
    cases st.tabs[st.active_tab]? <;> simp [session_refreshed]

/-- Claim C5, instance: [A, B] with A active; `win_tab_move(+1)` gives [B, A] with
active index 1, and `rel_index(-1)` is then 0. -/
theorem move_exchanges_active_witness :
    exTwoTabs.active_tab < exTwoTabs.tabs.length ∧
    (∃ j st1, rel_index exTwoTabs 1 = some j ∧ j < exTwoTabs.tabs.length ∧
      win_tab_move exTwoTabs 1 = some st1 ∧
      st1.active_tab = j ∧
      st1.tabs.length = exTwoTabs.tabs.length ∧
      (∀ m : Nat, st1.tabs[m]?
        = (exTwoTabs.tabs[exchanged exTwoTabs.active_tab j m]?).map (refreshed j m)) ∧
      (st1.tabs[st1.active_tab]?).map Tab.session
        = (exTwoTabs.tabs[exTwoTabs.active_tab]?).map Tab.session) ∧
    (win_tab_move exTwoTabs 1).map (fun s => (s.tabs.map (fun t => t.terminal), s.active_tab))
      = some ([20, 10], 1) ∧
    (win_tab_move exTwoTabs 1).bind (fun s => rel_index s (-1)) = some 0 :=
  ⟨by decide, move_exchanges_active exTwoTabs 1 (by decide), by decide, by decide⟩

/-! ## The active index stays valid -/

theorem set_active_tab_valid (st st1 : State) (index : Nat)
    (h : set_active_tab st index = some st1) : st1.active_tab < st1.tabs.length := by
  by_cases hi : index < st.tabs.length
  · obtain ⟨s, hs, hact, hlen, _⟩ := set_active_tab_spec st index hi
    rw [hs] at h
    simp only [Option.some.injEq] at h
    subst h
    omega
  · rw [set_active_tab_none st index hi] at h
    simp at h

theorem win_tab_set_title_frame (st st1 : State) (term : Nat) (title : String)
    (h : win_tab_set_title st term title = some st1) :
    st1.tabs.length = st.tabs.length ∧ st1.active_tab = st.active_tab := by
  unfold win_tab_set_title at h
  split at h
  · simp at h
  · split at h
    · simp at h
    · split at h
      · simp at h
      · simp only at h
        split at h
        · simp at h
        · simp only [Option.some.injEq] at h
          subst h
          split
          · simp [invalidate_tabs, win_invalidate_all, length_modify_tab]
          · exact ⟨rfl, rfl⟩

theorem win_tab_title_push_frame (st st1 : State) (term : Nat)
    (h : win_tab_title_push st term = some st1) :
    st1.tabs.length = st.tabs.length ∧ st1.active_tab = st.active_tab := by
  unfold win_tab_title_push at h
  split at h
  · simp at h
  · simp only [Option.some.injEq] at h
    subst h
    simp [length_modify_tab]

theorem win_tab_title_pop_frame (st st1 : State) (term : Nat) (r : Option String)
    (h : win_tab_title_pop st term = some (st1, r)) :
    st1.tabs.length = st.tabs.length ∧ st1.active_tab = st.active_tab := by
  unfold win_tab_title_pop at h
  split at h
  · simp at h
  · simp only [Option.some.injEq, Prod.mk.injEq] at h
    obtain ⟨h1, _⟩ := h
    subst h1
    simp [length_modify_tab]

theorem win_tab_restore_title_frame (st st1 : State) (term : Nat)
    (h : win_tab_restore_title st term = some st1) :
    st1.tabs.length = st.tabs.length ∧ st1.active_tab = st.active_tab := by
  unfold win_tab_restore_title at h
  split at h
  · simp at h
  · simp at h
  · rename_i s2 title hpop
    obtain ⟨a1, a2⟩ := win_tab_title_pop_frame _ _ _ _ hpop
    obtain ⟨b1, b2⟩ := win_tab_set_title_frame _ _ _ _ h
    exact ⟨by omega, by omega⟩

theorem win_tab_attention_frame (st st1 : State) (term : Nat)
    (h : win_tab_attention st term = some st1) :
    st1.tabs.length = st.tabs.length ∧ st1.active_tab = st.active_tab := by
  unfold win_tab_attention at h
  split at h
  · simp at h
  · simp only [Option.some.injEq] at h
    subst h
    simp [invalidate_tabs, win_invalidate_all, length_modify_tab]

theorem win_tab_create_valid (d : Decls) (st st1 : State) (terminal chld pid : Nat)
    (title : String) (h : win_tab_create d st terminal chld pid title = some st1) :
    st1.active_tab < st1.tabs.length := by
  unfold win_tab_create at h
  split at h
  · split at h
    · simp at h
    · split at h
      · simp at h
      · rename_i s2 _ s3 hs3
        have hv := set_active_tab_valid _ _ _ hs3
        obtain ⟨f1, f2, _⟩ := set_tab_bar_visibility_frame _ _ _ h
        rw [f1, f2]
        exact hv
  · simp at h

theorem win_tab_close_frame (st st1 : State) (h : win_tab_close st = some st1) :
    st1.tabs = st.tabs ∧ st1.active_tab = st.active_tab := by
  unfold win_tab_close at h
  split at h
  · simp only [Option.some.injEq] at h
    subst h
    exact ⟨rfl, rfl⟩
  · simp at h

theorem win_tab_mouse_click_valid (d : Decls) (st st1 : State) (down : Bool) (x : Int)
    (terminal chld pid : Nat) (title : String)
    (h : win_tab_mouse_click d st down x terminal chld pid title = some st1) :
    st1 = st ∨ st1.active_tab < st1.tabs.length := by
  unfold win_tab_mouse_click at h
  split at h
  · simp at h
  · simp only at h
    split at h
    · split at h
      · split at h
        · exact Or.inr (win_tab_create_valid _ _ _ _ _ _ _ h)
        · simp only [Option.some.injEq] at h
          exact Or.inl h.symm
      · simp only [Option.some.injEq] at h
        exact Or.inl h.symm
    · split at h
      · simp at h
      · rename_i s2 hs2
        have hv := set_active_tab_valid _ _ _ hs2
        split at h
        · split at h
          · obtain ⟨f1, f2⟩ := win_tab_close_frame _ _ h
            rw [f1, f2]
            exact Or.inr hv
          · simp only [Option.some.injEq] at h
            subst h
            exact Or.inr hv
        · simp only [Option.some.injEq] at h
          subst h
          exact Or.inr hv

theorem win_paint_tabs_frame (d : Decls) (st st1 : State) (width : Int)
    (h : win_paint_tabs d st width = some st1) :
    st1.tabs = st.tabs ∧ st1.active_tab = st.active_tab := by
  unfold win_paint_tabs at h
  split at h
  · simp only [Option.some.injEq] at h
    subst h
    exact ⟨rfl, rfl⟩
  · split at h
    · simp at h
    · simp only [Option.some.injEq] at h
      subst h
      exact ⟨rfl, rfl⟩

theorem win_tab_clean_valid (st st1 : State) (h : win_tab_clean st = some st1)
    (hinv : st.tabs ≠ [] → st.active_tab < st.tabs.length) :
    st1.tabs ≠ [] → st1.active_tab < st1.tabs.length := by
  obtain ⟨s, hrun, _, hl, _, hsame, hempty, hsome⟩ := win_tab_clean_spec st
  rw [hrun] at h
  simp only [Option.some.injEq] at h
  subst h
  intro hne1
  by_cases hdead : ∃ t ∈ st.tabs, t.pid = 0
  · by_cases hne : st.tabs.filter (fun t => !(t.pid == 0)) = []
    · exact absurd (hempty hdead hne).1 hne1
    · have hpos : 0 < (st.tabs.filter (fun t => !(t.pid == 0))).length :=
        List.length_pos.2 hne
      rw [(hsome hdead hne).1, hl]
      exact clean_index_lt _ _ hpos
  · have hall : ∀ t ∈ st.tabs, t.pid ≠ 0 := fun t ht hp => hdead ⟨t, ht, hp⟩
    rw [hsame hall] at hne1 ⊢
    exact hinv hne1

theorem step_preserves_valid (d : Decls) (st st1 : State) (hstep : Step d st st1)
    (hinv : st.tabs ≠ [] → st.active_tab < st.tabs.length) :
    st1.tabs ≠ [] → st1.active_tab < st1.tabs.length := by
  have keep : ∀ s : State, s.tabs.length = st.tabs.length → s.active_tab = st.active_tab →
      (s.tabs ≠ [] → s.active_tab < s.tabs.length) := by
    intro s h1 h2 hne
    have : st.tabs ≠ [] := by
      intro he
      apply hne
      apply List.eq_nil_of_length_eq_zero
      rw [h1, he]
      rfl
    have := hinv this
    omega
  cases hstep with
  | create _ terminal chld pid title h =>
    exact fun _ => win_tab_create_valid _ _ _ _ _ _ _ h
  | change _ delta h =>
    intro _
    unfold win_tab_change at h
    split at h
    · simp at h
    · exact set_active_tab_valid _ _ _ h
  | move _ delta h =>
    intro _
    unfold win_tab_move at h
    split at h
    · simp at h
    · split at h
      · simp at h
      · exact set_active_tab_valid _ _ _ h
  | clean _ h => exact win_tab_clean_valid st st1 h hinv
  | attention _ term h =>
    obtain ⟨h1, h2⟩ := win_tab_attention_frame _ _ _ h
    exact keep st1 h1 h2
  | set_title _ term title h =>
    obtain ⟨h1, h2⟩ := win_tab_set_title_frame _ _ _ _ h
    exact keep st1 h1 h2
  | save_title _ term h =>
    obtain ⟨h1, h2⟩ := win_tab_title_push_frame _ _ _ h
    exact keep st1 h1 h2
  | title_pop _ term r h =>
    obtain ⟨h1, h2⟩ := win_tab_title_pop_frame _ _ _ _ h
    exact keep st1 h1 h2
  | restore_title _ term h =>
    obtain ⟨h1, h2⟩ := win_tab_restore_title_frame _ _ _ h
    exact keep st1 h1 h2
  | mouse_click _ down x terminal chld pid title _ h =>
    rcases win_tab_mouse_click_valid _ _ _ _ _ _ _ _ _ h with he | hv
    · rw [he]; exact hinv
    · exact fun _ => hv
  | paint _ width h =>
    obtain ⟨h1, h2⟩ := win_paint_tabs_frame _ _ _ _ h
    exact keep st1 (by rw [h1]) h2
  | exit i =>
    exact keep _ (by simp [child_exit, length_modify_tab]) rfl
  | set_timer cb data fresh =>
    exact keep _ rfl rfl
  | timer _ mem message calls h =>
    unfold win_process_timer_message at h
    split at h
    · simp at h
    · simp only [Option.some.injEq, Prod.mk.injEq] at h
      obtain ⟨h1, _⟩ := h
      subst h1
      exact keep _ rfl rfl

/-- Claim C6.  Active-index invariant: in every state reached from a one-tab
collection with active index 0 by calls of `win_tab_create`,
`win_tab_change`, `win_tab_move`, `win_tab_clean`, `win_tab_attention`, the
title functions, `win_tab_mouse_click` with a positive tab width (and by
painting, timer calls and process exits), the active index is below the
number of tabs whenever there is a tab. -/
theorem active_index_valid (d : Decls) (st0 st : State)
    (h0 : st0.tabs.length = 1) (ha : st0.active_tab = 0)
    (hr : Reachable d st0 st) (hne : st.tabs ≠ []) :
    st.active_tab < st.tabs.length := by
  revert hne
  unfold Reachable at hr
  induction hr with
  | refl =>
    intro _
    omega
  | tail _ hstep ih => exact step_preserves_valid d _ _ hstep ih

/-- Claim C6, instance: the state that `win_tab_create` leads to from the fresh
one-tab state. -/
theorem active_index_valid_witness :
    ((exFresh exDecls).tabs.length = 1 ∧ (exFresh exDecls).active_tab = 0 ∧
      Reachable exDecls (exFresh exDecls) exCreated ∧ exCreated.tabs ≠ []) ∧
    exCreated.active_tab < exCreated.tabs.length :=
  have hr : Reachable exDecls (exFresh exDecls) exCreated :=
    Relation.ReflTransGen.single
      (Step.create (exFresh exDecls) exCreated 20 21 6 "sh" (by decide))
  ⟨⟨by decide, by decide, hr, by decide⟩,
    active_index_valid exDecls (exFresh exDecls) exCreated (by decide) (by decide) hr
      (by decide)⟩

/-! ## Relative index -/

theorem rel_index_in_range (st : State) (delta : Int)
    (ha : st.active_tab < st.tabs.length) (hlen : st.tabs.length < 2147483648)
    (hlo : -((st.active_tab : Int) + (st.tabs.length : Int)) ≤ delta)
    (hhi : (st.active_tab : Int) + delta < 2147483648) :
    rel_index st delta
      = some (((st.active_tab : Int) + delta) % (st.tabs.length : Int)).toNat := by
  have hne : ¬ st.tabs.length = 0 := by omega
  simp only [rel_index, hne, if_false]
  congr 1
  have h1 : i32 (i32 (st.active_tab : Int) + delta) = (st.active_tab : Int) + delta := by
    unfold i32
    omega
  rw [h1]
  have h2 : u64 ((u64 ((st.active_tab : Int) + delta) : Int) + (st.tabs.length : Int))
      = ((st.active_tab : Int) + delta + (st.tabs.length : Int)).toNat := by
    unfold u64
    omega
  rw [h2]
  have hq0 : 0 ≤ (st.active_tab : Int) + delta + (st.tabs.length : Int) := by omega
  have hmod : ((st.active_tab : Int) + delta) % (st.tabs.length : Int)
      = ((((st.active_tab : Int) + delta + (st.tabs.length : Int)).toNat % st.tabs.length
          : Nat) : Int) := by
    rw [Int.ofNat_emod, Int.toNat_of_nonneg hq0, Int.add_emod_self]
  rw [hmod]
  have hr := Nat.mod_lt ((st.active_tab : Int) + delta + (st.tabs.length : Int)).toNat
    (show 0 < st.tabs.length by omega)
  generalize ((st.active_tab : Int) + delta + (st.tabs.length : Int)).toNat % st.tabs.length
    = r at hr
  unfold u32
  omega

/-- Claim C16, as the code has it.  For a collection of `len` tabs
(`0 < len < 2^31`) with valid active index and an `int` `delta`, the value of
`rel_index` is always below `len`; it is the mathematical
`(active_tab + delta) mod len` whenever `-(active_tab + len) ≤ delta` and
`active_tab + delta` is an `int`. -/
theorem rel_index_wraps_once (st : State) (delta : Int)
    (ha : st.active_tab < st.tabs.length) (hlen : st.tabs.length < 2147483648) :
    (∃ j, rel_index st delta = some j ∧ j < st.tabs.length) ∧
    (-((st.active_tab : Int) + (st.tabs.length : Int)) ≤ delta →
      (st.active_tab : Int) + delta < 2147483648 →
      rel_index st delta
        = some (((st.active_tab : Int) + delta) % (st.tabs.length : Int)).toNat) :=
  ⟨rel_index_lt st delta (by omega), rel_index_in_range st delta ha hlen⟩

/-- Claim C16, instance: three tabs, active index 0, `delta = -1` gives 2. -/
theorem rel_index_wraps_once_witness :
    (exThreeTabs.active_tab < exThreeTabs.tabs.length ∧
      exThreeTabs.tabs.length < 2147483648) ∧
    (∃ j, rel_index exThreeTabs (-1) = some j ∧ j < exThreeTabs.tabs.length) ∧
    rel_index exThreeTabs (-1)
      = some (((exThreeTabs.active_tab : Int) + (-1)) % (exThreeTabs.tabs.length : Int)).toNat ∧
    rel_index exThreeTabs (-1) = some 2 :=
  ⟨by decide,
   (rel_index_wraps_once exThreeTabs (-1) (by decide) (by decide)).1,
   (rel_index_wraps_once exThreeTabs (-1) (by decide) (by decide)).2 (by decide) (by decide),
   by decide⟩

/-- Claim C16, refuted as stated.  Three tabs, active index 0, `delta = -4`:
`-4 < -(0 + 3)`, the mathematical value of `(0 + -4) mod 3` is 2, and
`rel_index` returns 0. -/
theorem rel_index_below_one_wrap :
    exThreeTabs.tabs.length = 3 ∧ exThreeTabs.active_tab = 0 ∧
    ((0 : Int) + (-4)) % 3 = 2 ∧
    rel_index exThreeTabs (-4) = some 0 := by
  decide

/-! ## Switching tabs -/

theorem win_tab_change_next (st : State) (ha : st.active_tab < st.tabs.length)
    (hlen : st.tabs.length < 2147483648) :
    ∃ st1, win_tab_change st 1 = some st1 ∧
      st1.active_tab = (st.active_tab + 1) % st.tabs.length ∧
      st1.tabs.length = st.tabs.length := by
  have hr := rel_index_in_range st 1 ha hlen (by omega) (by omega)
  have hcast : (((st.active_tab : Int) + 1) % (st.tabs.length : Int)).toNat
      = (st.active_tab + 1) % st.tabs.length := by
    have : ((st.active_tab : Int) + 1) % (st.tabs.length : Int)
        = (((st.active_tab + 1) % st.tabs.length : Nat) : Int) := by
      rw [Int.ofNat_emod]
      rfl
    rw [this, Int.toNat_ofNat]
  rw [hcast] at hr
  have hlt : (st.active_tab + 1) % st.tabs.length < st.tabs.length :=
    Nat.mod_lt _ (by omega)
  obtain ⟨st1, hs, hact, hl, _⟩ := set_active_tab_spec st _ hlt
  exact ⟨st1, by simp only [win_tab_change, hr]; exact hs, hact, hl⟩

theorem tab_changes_next (k : Nat) (st : State) (ha : st.active_tab < st.tabs.length)
    (hlen : st.tabs.length < 2147483648) :
    ∃ st1, tab_changes 1 k st = some st1 ∧
      st1.active_tab = (st.active_tab + k) % st.tabs.length ∧
      st1.tabs.length = st.tabs.length := by
  induction k generalizing st with
  | zero => exact ⟨st, rfl, by simp [Nat.mod_eq_of_lt ha], rfl⟩
  | succ k ih =>
    obtain ⟨s1, h1, hact1, hl1⟩ := win_tab_change_next st ha hlen
    have hpos : 0 < st.tabs.length := by omega
    have ha1 : s1.active_tab < s1.tabs.length := by
      rw [hact1, hl1]
      exact Nat.mod_lt _ hpos
    obtain ⟨s2, h2, hact2, hl2⟩ := ih s1 ha1 (by omega)
    refine ⟨s2, ?_, ?_, by omega⟩
    · simp only [tab_changes, h1]
      exact h2
    · rw [hact2, hact1, hl1, Nat.mod_add_mod]
      congr 1
      omega

/-- Claim C11.  For a collection of `N ≥ 1` tabs (`N` an `int`) and a valid
active index, `N` calls of `win_tab_change(1)` all return and bring the
active index back to its starting value. -/
theorem change_next_full_cycle (st : State) (ha : st.active_tab < st.tabs.length)
    (hlen : st.tabs.length < 2147483648) :
    ∃ st1, tab_changes 1 st.tabs.length st = some st1 ∧
      st1.active_tab = st.active_tab := by
  obtain ⟨st1, h1, hact, _⟩ := tab_changes_next st.tabs.length st ha hlen
  refine ⟨st1, h1, ?_⟩
  rw [hact, Nat.add_mod_right, Nat.mod_eq_of_lt ha]

/-- Claim C11, instance: three tabs, starting at A (index 0); the active
index goes 1, 2, 0. -/
theorem change_next_full_cycle_witness :
    (exThreeTabs.active_tab < exThreeTabs.tabs.length ∧
      exThreeTabs.tabs.length < 2147483648) ∧
    (∃ st1, tab_changes 1 exThreeTabs.tabs.length exThreeTabs = some st1 ∧
      st1.active_tab = exThreeTabs.active_tab) ∧
    (tab_changes 1 1 exThreeTabs).map (fun s => s.active_tab) = some 1 ∧
    (tab_changes 1 2 exThreeTabs).map (fun s => s.active_tab) = some 2 ∧
    (tab_changes 1 3 exThreeTabs).map (fun s => s.active_tab) = some 0 :=
  ⟨by decide, change_next_full_cycle exThreeTabs (by decide) (by decide),
   by decide, by decide, by decide⟩

/-- Claim C12.  For every index `i` below the number of tabs,
`set_active_tab(i)` returns; afterwards the active index is `i`, a tab has
focus exactly when it is at position `i`, the tab at `i` has its attention
flag off, every other tab keeps its attention flag, and the sessions,
processes and title stacks are the old ones in the old order. -/
theorem activate_focuses_one (st : State) (i : Nat) (hi : i < st.tabs.length) :
    ∃ st1, set_active_tab st i = some st1 ∧
      st1.active_tab = i ∧
      st1.tabs.length = st.tabs.length ∧
      (∀ (m : Nat) (t : Tab), st1.tabs[m]? = some t → (t.has_focus = true ↔ m = i)) ∧
      (∃ t, st1.tabs[i]? = some t ∧ t.has_focus = true ∧ t.info.attention = false) ∧
      (∀ m : Nat, m ≠ i →
        (st1.tabs[m]?).map (fun t => t.info.attention)
          = (st.tabs[m]?).map (fun t => t.info.attention)) ∧
      st1.tabs.map Tab.session = st.tabs.map Tab.session := by
  obtain ⟨st1, hs, hact, hl, htabs, _⟩ := set_active_tab_spec st i hi
  refine ⟨st1, hs, hact, hl, ?_, ?_, ?_, ?_⟩
  · intro m t hm
    rw [htabs m] at hm
    cases hg : st.tabs[m]? with
    | none => simp [hg] at hm
    | some u =>
      simp only [hg, Option.map_some', Option.some.injEq] at hm
      subst hm
      simp [refreshed]
  · refine ⟨refreshed i i st.tabs[i], ?_, by simp [refreshed], by simp [refreshed]⟩
    rw [htabs i, List.getElem?_eq_getElem hi]
    rfl
  · intro m hm
    rw [htabs m]
    cases st.tabs[m]? <;> simp [refreshed, hm]
  · apply List.ext_getElem?
    intro m
    rw [List.getElem?_map, List.getElem?_map, htabs m]
    cases st.tabs[m]? <;> simp [session_refreshed]

/-- Claim C12, instance: activating B (index 1) in the two-tab example. -/
theorem activate_focuses_one_witness :
    1 < exTwoTabs.tabs.length ∧
    (∃ st1, set_active_tab exTwoTabs 1 = some st1 ∧
      st1.active_tab = 1 ∧
      st1.tabs.length = exTwoTabs.tabs.length ∧
      (∀ (m : Nat) (t : Tab), st1.tabs[m]? = some t → (t.has_focus = true ↔ m = 1)) ∧
      (∃ t, st1.tabs[1]? = some t ∧ t.has_focus = true ∧ t.info.attention = false) ∧
      (∀ m : Nat, m ≠ 1 →
        (st1.tabs[m]?).map (fun t => t.info.attention)
          = (exTwoTabs.tabs[m]?).map (fun t => t.info.attention)) ∧
      st1.tabs.map Tab.session = exTwoTabs.tabs.map Tab.session) ∧
    (set_active_tab exTwoTabs 1).map (fun s => s.tabs.map (fun t => t.has_focus))
      = some [false, true] :=
  ⟨by decide, activate_focuses_one exTwoTabs 1 (by decide), by decide⟩

/-! ## Pending callbacks -/

theorem find?_of_nodup_map {α β : Type} [DecidableEq β] (f : α → β) (l : List α) (n : α)
    (hmem : n ∈ l) (hnd : (l.map f).Nodup) :
    l.find? (fun m => f m == f n) = some n := by
  induction l with
  | nil => simp at hmem
  | cons a as ih =>
    rw [List.map_cons, List.nodup_cons] at hnd
    rcases List.mem_cons.1 hmem with h | h
    · subst h
      simp
    · have hne : ¬ f a = f n := by
        intro he
        apply hnd.1
        rw [he]
        exact List.mem_map_of_mem f h
      simp only [List.find?_cons]
      have : (f a == f n) = false := by simp [hne]
      rw [this]
      exact ih h hnd.2

theorem read_callback_pending (cbs : List CallbackNode) (mem : Nat → Option Callback)
    (n : CallbackNode) (hmem : n ∈ cbs) (haddr : (cbs.map (fun m => m.addr)).Nodup) :
    read_callback cbs mem n.addr = some n.val := by
  unfold read_callback
  rw [find?_of_nodup_map (fun m : CallbackNode => m.addr) cbs n hmem haddr]

theorem mem_set_erase (cbs : List CallbackNode) (key : Callback) (m : CallbackNode) :
    m ∈ set_erase cbs key ↔ (m ∈ cbs ∧ m.val ≠ key) := by
  simp [set_erase, List.mem_filter]

/-- Claim C13.  In a registry whose nodes have pairwise distinct addresses
and pairwise distinct tuples, firing the timer id of a pending entry `n`
returns; at the moment of the call the registry holds exactly the other
entries (`n` is gone, every entry different from `n` is still there), the
rest of the state is untouched, and the one call made is the function of
`n` with the context of `n`. -/
theorem fire_pending_removes_then_calls (st : State) (mem : Nat → Option Callback)
    (n : CallbackNode) (hmem : n ∈ st.callbacks)
    (haddr : (st.callbacks.map (fun m => m.addr)).Nodup)
    (hval : (st.callbacks.map (fun m => m.val)).Nodup) :
    ∃ cbs, win_process_timer_message st mem n.addr
        = some ({ st with callbacks := cbs }, [n.val]) ∧
      n ∉ cbs ∧
      ∀ m : CallbackNode, m ∈ cbs ↔ (m ∈ st.callbacks ∧ m ≠ n) := by
  have hread := read_callback_pending st.callbacks mem n hmem haddr
  have hiff : ∀ m : CallbackNode,
      m ∈ set_erase st.callbacks n.val ↔ (m ∈ st.callbacks ∧ m ≠ n) := by
    intro m
    rw [mem_set_erase]
    constructor
    · rintro ⟨h1, h2⟩
      exact ⟨h1, fun he => h2 (by rw [he])⟩
    · rintro ⟨h1, h2⟩
      exact ⟨h1, fun he => h2 (List.inj_on_of_nodup_map hval h1 hmem he)⟩
  refine ⟨set_erase st.callbacks n.val, ?_, ?_, hiff⟩
  · simp [win_process_timer_message, hread]
  · intro h
    exact ((hiff n).1 h).2 rfl

/-- Claim C13, instance: the four pending callbacks of the example, firing
the one at address 96. -/
theorem fire_pending_removes_then_calls_witness :
    ((⟨96, ⟨2, 10⟩⟩ : CallbackNode) ∈ exDeadB.callbacks ∧
      (exDeadB.callbacks.map (fun m => m.addr)).Nodup ∧
      (exDeadB.callbacks.map (fun m => m.val)).Nodup) ∧
    (∃ cbs, win_process_timer_message exDeadB exStaleMem 96
        = some ({ exDeadB with callbacks := cbs }, [⟨2, 10⟩]) ∧
      (⟨96, ⟨2, 10⟩⟩ : CallbackNode) ∉ cbs ∧
      ∀ m : CallbackNode, m ∈ cbs ↔ (m ∈ exDeadB.callbacks ∧ m ≠ ⟨96, ⟨2, 10⟩⟩)) ∧
    (win_process_timer_message exDeadB exStaleMem 96).map (fun r => (r.1.callbacks, r.2))
      = some ([⟨64, ⟨1, 20⟩⟩, ⟨128, ⟨2, 20⟩⟩, ⟨160, ⟨3, 20⟩⟩], [⟨2, 10⟩]) :=
  ⟨by decide,
   fire_pending_removes_then_calls exDeadB exStaleMem ⟨96, ⟨2, 10⟩⟩
     (by decide) (by decide) (by decide),
   by decide⟩

/-- Claim C19.  In a registry whose nodes have pairwise distinct addresses
and pairwise distinct tuples and in which the pair `(fn, ctx)` is pending in
node `n`, `win_set_timer(fn, ctx, _)` leaves the state unchanged and arms the
timer id of `n`; one fire of that id then calls `fn(ctx)` once and leaves no
entry for `(fn, ctx)` pending. -/
theorem schedule_pending_pair_reuses (st : State) (mem : Nat → Option Callback)
    (fn ctx fresh : Nat) (n : CallbackNode) (hmem : n ∈ st.callbacks)
    (hpair : n.val = ⟨fn, ctx⟩)
    (haddr : (st.callbacks.map (fun m => m.addr)).Nodup)
    (hval : (st.callbacks.map (fun m => m.val)).Nodup) :
    win_set_timer st fn ctx fresh = (st, n.addr) ∧
    ∃ cbs, win_process_timer_message (win_set_timer st fn ctx fresh).1 mem
          (win_set_timer st fn ctx fresh).2
        = some ({ st with callbacks := cbs }, [⟨fn, ctx⟩]) ∧
      ∀ m ∈ cbs, m.val ≠ ⟨fn, ctx⟩ := by
  have hfind : st.callbacks.find? (fun m => m.val == (⟨fn, ctx⟩ : Callback)) = some n := by
    rw [← hpair]
    exact find?_of_nodup_map (fun m : CallbackNode => m.val) st.callbacks n hmem hval
  have hset : win_set_timer st fn ctx fresh = (st, n.addr) := by
    simp only [win_set_timer, set_insert, hfind]
  refine ⟨hset, set_erase st.callbacks ⟨fn, ctx⟩, ?_, ?_⟩
  · rw [hset]
    have hread := read_callback_pending st.callbacks mem n hmem haddr
    simp [win_process_timer_message, hread, hpair]
  · intro m hm
    exact ((mem_set_erase _ _ _).1 hm).2

/-- Claim C19, instance: scheduling function 2 with context 10 again while
it is pending at address 96. -/
theorem schedule_pending_pair_reuses_witness :
    ((⟨96, ⟨2, 10⟩⟩ : CallbackNode) ∈ exDeadB.callbacks ∧
      (exDeadB.callbacks.map (fun m => m.addr)).Nodup ∧
      (exDeadB.callbacks.map (fun m => m.val)).Nodup) ∧
    (win_set_timer exDeadB 2 10 512 = (exDeadB, 96) ∧
      ∃ cbs, win_process_timer_message (win_set_timer exDeadB 2 10 512).1 exStaleMem
            (win_set_timer exDeadB 2 10 512).2
          = some ({ exDeadB with callbacks := cbs }, [⟨2, 10⟩]) ∧
        ∀ m ∈ cbs, m.val ≠ ⟨2, 10⟩) :=
  ⟨by decide,
   schedule_pending_pair_reuses exDeadB exStaleMem 2 10 512 ⟨96, ⟨2, 10⟩⟩
     (by decide) rfl (by decide) (by decide)⟩

/-! ## The registry invariant is kept by scheduling and firing -/

theorem ordered_insert_perm (n : CallbackNode) (l : List CallbackNode) :
    (ordered_insert n l).Perm (n :: l) := by
  induction l with
  | nil => exact List.Perm.refl _
  | cons m ms ih =>
    unfold ordered_insert
    split
    · exact List.Perm.refl _
    · exact (List.Perm.cons m ih).trans (List.Perm.swap n m ms)

theorem win_set_timer_keeps_invariant (st : State) (cb data fresh : Nat)
    (haddr : (st.callbacks.map (fun m => m.addr)).Nodup)
    (hval : (st.callbacks.map (fun m => m.val)).Nodup)
    (hfresh : ∀ m ∈ st.callbacks, m.addr ≠ fresh) :
    ((win_set_timer st cb data fresh).1.callbacks.map (fun m => m.addr)).Nodup ∧
    ((win_set_timer st cb data fresh).1.callbacks.map (fun m => m.val)).Nodup := by
  unfold win_set_timer set_insert
  cases hf : st.callbacks.find? (fun n => n.val == (⟨cb, data⟩ : Callback)) with
  | some n => exact ⟨haddr, hval⟩
  | none =>
    have hp := ordered_insert_perm ⟨fresh, ⟨cb, data⟩⟩ st.callbacks
    have hnew : ∀ m ∈ st.callbacks, m.val ≠ (⟨cb, data⟩ : Callback) := by
      intro m hm
      have := List.find?_eq_none.1 hf m hm
      simpa using this
    constructor
    · rw [(hp.map (fun m => m.addr)).nodup_iff, List.map_cons, List.nodup_cons]
      refine ⟨?_, haddr⟩
      intro h
      obtain ⟨m, hm, he⟩ := List.mem_map.1 h
      exact hfresh m hm he
    · rw [(hp.map (fun m => m.val)).nodup_iff, List.map_cons, List.nodup_cons]
      refine ⟨?_, hval⟩
      intro h
      obtain ⟨m, hm, he⟩ := List.mem_map.1 h
      exact hnew m hm he

theorem set_erase_keeps_invariant (cbs : List CallbackNode) (key : Callback)
    (haddr : (cbs.map (fun m => m.addr)).Nodup)
    (hval : (cbs.map (fun m => m.val)).Nodup) :
    ((set_erase cbs key).map (fun m => m.addr)).Nodup ∧
    ((set_erase cbs key).map (fun m => m.val)).Nodup := by
  unfold set_erase
  exact ⟨haddr.sublist ((List.filter_sublist _).map _),
    hval.sublist ((List.filter_sublist _).map _)⟩

/-! ## Title stack: circularity -/

theorem modify_tab_self (l : List Tab) (i : Nat) (f : Tab → Tab) (t : Tab)
    (ht : l[i]? = some t) (hf : f t = t) : modify_tab l i f = l := by
  apply List.ext_getElem?
  intro m
  rw [getElem?_modify_tab]
  split
  · rename_i hm
    subst hm
    simp [ht, hf]
  · rfl

theorem push_cursor_iterate (k : Nat) (info : TabInfo)
    (h : info.titles_i ≤ info.titles.length) :
    push_cursor^[k] info
      = { info with titles_i := (info.titles_i + k) % (info.titles.length + 1) } := by
  induction k with
  | zero =>
    have : info.titles_i % (info.titles.length + 1) = info.titles_i :=
      Nat.mod_eq_of_lt (by omega)
    simp [this]
  | succ k ih =>
    rw [Function.iterate_succ_apply', ih]
    have hlt := Nat.mod_lt (info.titles_i + k) (show 0 < info.titles.length + 1 by omega)
    have hstep : (info.titles_i + (k + 1)) % (info.titles.length + 1)
        = ((info.titles_i + k) % (info.titles.length + 1) + 1) % (info.titles.length + 1) := by
      rw [Nat.mod_add_mod]
      rfl
    rw [hstep]
    generalize (info.titles_i + k) % (info.titles.length + 1) = c at hlt
    unfold push_cursor
    by_cases hc : c = info.titles.length
    · subst hc
      simp
    · have : (c + 1) % (info.titles.length + 1) = c + 1 := Nat.mod_eq_of_lt (by omega)
      simp [hc, this]

theorem title_pushes_eq (term : Nat) (k : Nat) (st : State) (i : Nat)
    (hown : tab_by_term st.tabs term = some i) :
    title_pushes term k st
      = some { st with tabs := (modify_tab st.tabs i
          (fun t => { t with info := push_cursor^[k] t.info })) } := by
  induction k generalizing st with
  | zero =>
    have : modify_tab st.tabs i (fun t => { t with info := push_cursor^[0] t.info })
        = st.tabs := modify_tab_id _ _ _ (fun _ => rfl)
    simp only [title_pushes, this]
  | succ k ih =>
    have hown1 : tab_by_term (modify_tab st.tabs i
        (fun t => { t with info := push_cursor t.info })) term = some i := by
      rw [tab_by_term_modify_tab st.tabs i (fun t => { t with info := push_cursor t.info })
        term (fun _ => rfl)]
      exact hown
    have hih := ih { st with tabs := (modify_tab st.tabs i
        (fun t => { t with info := push_cursor t.info })) } hown1
    simp only [title_pushes, win_tab_title_push, hown]
    rw [hih]
    simp only [modify_tab_modify_tab, Function.iterate_succ_apply]

/-- Claim C14.  Title-stack circularity: when `term` is the session of the
tab at position `i`, whose title array has `N` slots and whose cursor is
among the values the code gives it (at most `N`), `N + 1` calls of
`win_tab_title_push` in a row return and give back the state they started
from, the cursor included. -/
theorem title_pushes_full_circle (st : State) (term : Nat) (i : Nat) (tab : Tab)
    (hown : tab_by_term st.tabs term = some i) (htab : st.tabs[i]? = some tab)
    (hreach : tab.info.titles_i ≤ tab.info.titles.length) :
    title_pushes term (tab.info.titles.length + 1) st = some st := by
  rw [title_pushes_eq term _ st i hown]
  have hback : push_cursor^[tab.info.titles.length + 1] tab.info = tab.info := by
    rw [push_cursor_iterate _ _ hreach, Nat.add_mod_right, Nat.mod_eq_of_lt (by omega)]
  have : modify_tab st.tabs i
      (fun t => { t with info := push_cursor^[tab.info.titles.length + 1] t.info })
      = st.tabs := modify_tab_self _ _ _ tab htab (by simp only [hback])
  rw [this]

/-- Claim C14, instance: tab B of the two-tab example has three slots and
cursor 1; the cursor goes 2, 3, 0, 1 over four pushes. -/
theorem title_pushes_full_circle_witness :
    (tab_by_term exTwoTabs.tabs 20 = some 1 ∧ exTwoTabs.tabs[1]? = some exTabB ∧
      exTabB.info.titles_i ≤ exTabB.info.titles.length) ∧
    title_pushes 20 (exTabB.info.titles.length + 1) exTwoTabs = some exTwoTabs ∧
    (title_pushes 20 1 exTwoTabs).map (fun s => s.tabs.map (fun t => t.info.titles_i))
      = some [1, 2] ∧
    (title_pushes 20 2 exTwoTabs).map (fun s => s.tabs.map (fun t => t.info.titles_i))
      = some [1, 3] ∧
    (title_pushes 20 3 exTwoTabs).map (fun s => s.tabs.map (fun t => t.info.titles_i))
      = some [1, 0] :=
  ⟨by decide,
   title_pushes_full_circle exTwoTabs 20 1 exTabB (by decide) (by decide) (by decide),
   by decide, by decide, by decide⟩

/-! ## Attention -/

/-- Claim C15, as the code has it.  `win_tab_attention` needs an owner: for
a session that no tab owns the call has no defined result (the flag is
written through the end iterator that `tab_by_term` dereferences); when the
first tab owning the session is at position `i`, the call returns, sets the
attention flag of that tab, requests a repaint, and leaves every other tab,
the tab order and the active index as they were. -/
theorem attention_needs_owner (st : State) (term : Nat) :
    ((∀ t ∈ st.tabs, t.terminal ≠ term) → win_tab_attention st term = none) ∧
    (∀ i : Nat, tab_by_term st.tabs term = some i →
      ∃ st1, win_tab_attention st term = some st1 ∧
        st1.active_tab = st.active_tab ∧
        st1.invalidations = st.invalidations + 1 ∧
        st1.tabs.length = st.tabs.length ∧
        (∀ m : Nat, st1.tabs[m]? = (st.tabs[m]?).map
          (fun t => if m = i then { t with info := { t.info with attention := true } }
                    else t))) := by
  constructor
  · intro hnone
    have : tab_by_term st.tabs term = none := by
      unfold tab_by_term
      rw [find_if_none]
      intro t ht
      simpa using hnone t ht
    simp [win_tab_attention, this]
  · intro i hi
    refine ⟨invalidate_tabs { st with tabs := (modify_tab st.tabs i (fun t =>
      { t with info := { t.info with attention := true } })) }, ?_, rfl, rfl, ?_, ?_⟩
    · simp [win_tab_attention, hi]
    · simp [invalidate_tabs, win_invalidate_all, length_modify_tab]
    · intro m
      simp only [invalidate_tabs, win_invalidate_all, getElem?_modify_tab]
      by_cases hm : m = i
      · simp [hm]
      · cases st.tabs[m]? <;> simp [hm]

/-- Claim C15, instance: in the two-tab example no tab owns session 99, and
tab B (position 1) owns session 20. -/
theorem attention_needs_owner_witness :
    ((∀ t ∈ exTwoTabs.tabs, t.terminal ≠ 99) ∧ tab_by_term exTwoTabs.tabs 20 = some 1) ∧
    win_tab_attention exTwoTabs 99 = none ∧
    (∃ st1, win_tab_attention exTwoTabs 20 = some st1 ∧
      st1.active_tab = exTwoTabs.active_tab ∧
      st1.invalidations = exTwoTabs.invalidations + 1 ∧
      st1.tabs.length = exTwoTabs.tabs.length ∧
      (∀ m : Nat, st1.tabs[m]? = (exTwoTabs.tabs[m]?).map
        (fun t => if m = 1 then { t with info := { t.info with attention := true } }
                  else t))) ∧
    (win_tab_attention exTwoTabs 20).map (fun s => s.tabs.map (fun t => t.info.attention))
      = some [false, true] :=
  ⟨by decide, (attention_needs_owner exTwoTabs 99).1 (by decide),
   (attention_needs_owner exTwoTabs 20).2 1 (by decide), by decide⟩

/-- Claim C15, refuted as stated.  No tab of the two-tab example owns
session 99, and `win_tab_attention` for it has no defined result, whereas
the claim has it return the state unchanged. -/
theorem attention_unowned_undefined :
    tab_by_term exTwoTabs.tabs 99 = none ∧
    win_tab_attention exTwoTabs 99 = none ∧
    win_tab_attention exTwoTabs 99 ≠ some exTwoTabs := by
  decide

/-! ## Layout bounds -/

/-- Claim C20.  For a tab count `N ≥ 1`, a preferred width `P` and an
available width `0 ≤ W` (an `int`): when `P ≥ 1` and `W ≥ N` the value of
line 378 is at least 1 and `N` tabs of that width fit in `W`; when `W < N`
it is 0.  For `win_paint_tabs` with the tab bar visible this is the stored
`tab_paint_width`: in the first case it is not 0, so the division of the hit
test is defined; in the second case it is 0 and `win_tab_mouse_click` has no
defined result. -/
theorem layout_bounds (d : Decls) (st : State) (width : Int) (W : Int) (N P : Nat)
    (hN : 1 ≤ N) (hW0 : 0 ≤ W) (hW : W < 2147483648) :
    (1 ≤ P → (N : Int) ≤ W →
      1 ≤ tabwidth W N P ∧ (N : Int) * tabwidth W N P ≤ W ∧ 0 ≤ W - (N : Int) * tabwidth W N P) ∧
    (W < (N : Int) → tabwidth W N P = 0) ∧
    (st.tab_bar_visible = true → st.tabs.length = N → paint_width d st width = W →
      preferred_width st = P →
      ∃ st1, win_paint_tabs d st width = some st1 ∧
        st1.tab_paint_width = tabwidth W N P ∧
        (1 ≤ P → (N : Int) ≤ W → st1.tab_paint_width ≠ 0) ∧
        (W < (N : Int) → ∀ (down : Bool) (x : Int) (terminal chld pid : Nat) (title : String),
          win_tab_mouse_click d st1 down x terminal chld pid title = none)) := by
  have h := tabwidth_eq_min W N P hW0 hW
  have hNpos : (0 : Int) < (N : Int) := by omega
  have hfit : 1 ≤ P → (N : Int) ≤ W →
      1 ≤ tabwidth W N P ∧ (N : Int) * tabwidth W N P ≤ W := by
    intro hP hNW
    have hq1 : 1 ≤ W / (N : Int) := by
      rw [Int.le_ediv_iff_mul_le hNpos]
      omega
    have hq2 : (N : Int) * (W / (N : Int)) ≤ W := Int.mul_ediv_self_le (by omega)
    rw [h]
    constructor
    · exact le_min (by omega) hq1
    · exact le_trans (mul_le_mul_of_nonneg_left (min_le_right _ _) (le_of_lt hNpos)) hq2
  have hzero : W < (N : Int) → tabwidth W N P = 0 := by
    intro hlt
    rw [h, Int.ediv_eq_zero_of_lt hW0 hlt]
    exact min_eq_right (by omega)
  refine ⟨fun hP hNW => ⟨(hfit hP hNW).1, (hfit hP hNW).2, by have := (hfit hP hNW).2; omega⟩,
    hzero, ?_⟩
  intro hvis hlen hpw hpref
  have hne : ¬ st.tabs.length = 0 := by omega
  refine ⟨init_scale_factors { st with tab_paint_width :=
    (tabwidth (paint_width d st width) st.tabs.length (preferred_width st)) }, ?_, ?_, ?_, ?_⟩
  · simp [win_paint_tabs, hvis, hne]
  · simp only [init_scale_factors, hlen, hpw, hpref]
  · intro hP hNW
    simp only [init_scale_factors, hlen, hpw, hpref]
    have := (hfit hP hNW).1
    omega
  · intro hlt down x terminal chld pid title
    have hz := hzero hlt
    simp only [hlen, hpw, hpref]
    simp [win_tab_mouse_click, init_scale_factors, hz]

/-- Claim C20, instances: four tabs, preferred width 200: 600 available give
width 150 and `4 * 150 ≤ 600`; 3 available give width 0. -/
theorem layout_bounds_witness :
    (1 ≤ 4 ∧ (0 : Int) ≤ 600 ∧ (600 : Int) < 2147483648 ∧ 1 ≤ 200 ∧ ((4 : Nat) : Int) ≤ 600) ∧
    (1 ≤ tabwidth 600 4 200 ∧ ((4 : Nat) : Int) * tabwidth 600 4 200 ≤ 600 ∧
      0 ≤ 600 - ((4 : Nat) : Int) * tabwidth 600 4 200) ∧
    (((0 : Int) ≤ 3 ∧ (3 : Int) < ((4 : Nat) : Int)) ∧ tabwidth 3 4 200 = 0) :=
  ⟨by decide,
   (layout_bounds exDecls exFourTabs 0 600 4 200 (by decide) (by decide) (by decide)).1
     (by decide) (by decide),
   by decide,
   (layout_bounds exDecls exFourTabs 0 3 4 200 (by decide) (by decide) (by decide)).2.1
     (by decide)⟩

/-! ## Pointer events -/

theorem click_tab_lt_iff (st : State) (x : Int) (htw : 0 < st.tab_paint_width) (hx0 : 0 ≤ x)
    (hx : x < 2147483648) :
    click_tab st x < st.tabs.length ↔ x < (st.tabs.length : Int) * st.tab_paint_width := by
  have hq := click_tab_eq st x htw hx0 hx
  have := @Int.ediv_lt_iff_lt_mul x (st.tabs.length : Int) st.tab_paint_width htw
  rw [← hq] at this
  rw [← this]
  exact Int.ofNat_lt.symm

end Fatty
